import Mathlib

/-!
A shallow embedding, in Lean 4, of the real-time transport-synchronization
core of this repository (src/AudioIO.cpp): the `PlaybackSchedule`,
`RecordingSchedule`, `ScrubQueue`, the capture/playback buffering logic of
`FillBuffers`, and the capture side of the hardware callback.

Conventions of the embedding:
* C++ `double` is modelled as `ℚ` (exact arithmetic; the source's algorithms
  are all finite arithmetic on values produced by finite computations).
* `sampleCount` / `long long` / `long` are modelled as `ℤ`; `size_t` and
  `unsigned` as `ℕ`.
* `static_cast<long long>(d)` on a `double` truncates toward zero and is
  modelled by `truncQ`; C `lrint` (round to nearest, ties to even, the
  default FP rounding mode) is modelled by `lrintQ`; C `floor` by `Int.floor`.
* Unbounded C loops are modelled with an explicit fuel argument; every
  theorem below either supplies enough fuel for the loop to reach its real
  exit condition or proves that the fuel cannot run out.
* Code of the repository that is not part of the snapshot (the AudioIO.h
  accessors, RingBuffer, TimeTrack, ScrubbingOptions) is modelled from the
  spec; each such definition carries a doc comment saying so.
-/

namespace Audacity

/-- Truncation toward zero of a rational, as C++ `static_cast<long long>`
applied to a `double`. -/
def truncQ (x : ℚ) : ℤ :=
  if 0 ≤ x then ⌊x⌋ else ⌈x⌉

/-- C `lrint` under the default rounding mode: round to nearest integer,
ties to even. -/
def lrintQ (x : ℚ) : ℤ :=
  let f := ⌊x⌋
  let frac := x - (f : ℚ)
  if frac < 1/2 then f
  else if (1:ℚ)/2 < frac then f + 1
  else if f % 2 = 0 then f else f + 1

/-! ## RingBuffer

The repository's `RingBuffer.cpp` is not part of this source snapshot; only
its callers are.  Modelled from the spec: a fixed-capacity
single-producer/single-consumer sample buffer with
`AvailForGet() + AvailForPut() == capacity` at all times; `Put` copies up to
the requested count (truncating at free space) and returns the actual count;
`Get` copies and consumes up to the requested count; `Discard` advances the
read cursor without copying and returns the actual count discarded.  Sample
values are irrelevant to the claims below, so the model tracks the stored
count against the capacity. -/
structure RingBuffer where
  capacity : ℕ
  stored : ℕ

namespace RingBuffer

/-- Modelled from the spec: free space, `capacity - AvailForGet()`. -/
def AvailForPut (rb : RingBuffer) : ℕ := rb.capacity - rb.stored

/-- Modelled from the spec: number of samples available to the consumer. -/
def AvailForGet (rb : RingBuffer) : ℕ := rb.stored

/-- Modelled from the spec: copy up to `n` samples in; returns the actual
count copied and the new buffer. -/
def Put (rb : RingBuffer) (n : ℕ) : ℕ × RingBuffer :=
  let actual := min n rb.AvailForPut
  (actual, { rb with stored := rb.stored + actual })

/-- Modelled from the spec: copy up to `n` samples out (consuming them);
returns the actual count and the new buffer. -/
def Get (rb : RingBuffer) (n : ℕ) : ℕ × RingBuffer :=
  let actual := min n rb.AvailForGet
  (actual, { rb with stored := rb.stored - actual })

/-- Modelled from the spec: advance the read cursor over up to `n` samples;
returns the actual count discarded and the new buffer. -/
def Discard (rb : RingBuffer) (n : ℕ) : ℕ × RingBuffer :=
  let actual := min n rb.AvailForGet
  (actual, { rb with stored := rb.stored - actual })

end RingBuffer

/-! ## Time track (warp curve)

`TimeTrack` is an external collaborator (not in the snapshot).  Modelled
from the spec: an optional time-warp function; `ComputeWarpedLength t0 t1`
is the warped (real) duration of the track interval `[t0,t1]`, and
`SolveWarpedLength t0 r` answers "how much track time corresponds to `r`
seconds of real time starting at track time `t0`".  We represent the warp
by its accumulated-real-time function `W` together with an explicit inverse
`Winv`; the warp is faithful when `W` is strictly monotone and `Winv` is a
two-sided inverse, which the theorems below take as hypotheses. -/
structure TimeTrackModel where
  W : ℚ → ℚ
  Winv : ℚ → ℚ

namespace TimeTrackModel

/-- Modelled from the spec: warped length of `[t0,t1]`. -/
def ComputeWarpedLength (tt : TimeTrackModel) (t0 t1 : ℚ) : ℚ :=
  tt.W t1 - tt.W t0

/-- Modelled from the spec: inverse-solve the warp from `t0` over `r`
seconds of real time. -/
def SolveWarpedLength (tt : TimeTrackModel) (t0 r : ℚ) : ℚ :=
  tt.Winv (tt.W t0 + r)

end TimeTrackModel

/-! ## PlaybackSchedule -/

/-- The play modes of `PlaybackSchedule::PlayMode` (AudioIO.h; the
enumerators are named in AudioIO.cpp). -/
inductive PlayMode where
  | PLAY_STRAIGHT
  | PLAY_LOOPED
  | PLAY_SCRUB
  | PLAY_AT_SPEED
deriving DecidableEq, Repr

open PlayMode

/-- The fields of `AudioIO::PlaybackSchedule` used by the claims:
start/end times, the atomically-readable current track time `mTime`, the
play mode, the cut-preview gap, the optional time track, and the
warped-time accumulators. -/
structure PlaybackSchedule where
  mT0 : ℚ
  mT1 : ℚ
  mTime : ℚ
  mPlayMode : PlayMode
  mCutPreviewGapStart : ℚ
  mCutPreviewGapLen : ℚ
  mTimeTrack : Option TimeTrackModel
  mWarpedTime : ℚ
  mWarpedLength : ℚ

namespace PlaybackSchedule

/-- Modelled from the spec (accessor lives in AudioIO.h): the snapshot's
comment "Test mTime within the PortAudio callback" and all call sites read
the atomic time directly. -/
def GetTrackTime (s : PlaybackSchedule) : ℚ := s.mTime

/-- Modelled from the spec (accessor lives in AudioIO.h): store the track
time. -/
def SetTrackTime (s : PlaybackSchedule) (t : ℚ) : PlaybackSchedule :=
  { s with mTime := t }

/-- Modelled from the spec (predicate lives in AudioIO.h): straight play. -/
def PlayingStraight (s : PlaybackSchedule) : Prop := s.mPlayMode = PLAY_STRAIGHT

/-- Modelled from the spec (predicate lives in AudioIO.h): looped play. -/
def Looping (s : PlaybackSchedule) : Prop := s.mPlayMode = PLAY_LOOPED

/-- Modelled from the spec (predicate lives in AudioIO.h): scrub mode.  The
snapshot's comment at `PassIsComplete` ("but may be true if playing at
speed") shows this excludes `PLAY_AT_SPEED`. -/
def Scrubbing (s : PlaybackSchedule) : Prop := s.mPlayMode = PLAY_SCRUB

/-- Modelled from the spec (predicate lives in AudioIO.h): play-at-speed. -/
def PlayingAtSpeed (s : PlaybackSchedule) : Prop := s.mPlayMode = PLAY_AT_SPEED

/-- Modelled from the spec (predicate lives in AudioIO.h): the interactive
modes are scrub and play-at-speed. -/
def Interactive (s : PlaybackSchedule) : Prop := Scrubbing s ∨ PlayingAtSpeed s

/-- Modelled from the spec (predicate lives in AudioIO.h): reversed
(backward) play means `mT1 < mT0`; cf. spec section 8.2 "if T0>T1
(reversed)". -/
def ReversedTime (s : PlaybackSchedule) : Prop := s.mT1 < s.mT0

instance (s : PlaybackSchedule) : Decidable (PlayingStraight s) := by
  unfold PlayingStraight; infer_instance
instance (s : PlaybackSchedule) : Decidable (Looping s) := by
  unfold Looping; infer_instance
instance (s : PlaybackSchedule) : Decidable (Scrubbing s) := by
  unfold Scrubbing; infer_instance
instance (s : PlaybackSchedule) : Decidable (PlayingAtSpeed s) := by
  unfold PlayingAtSpeed; infer_instance
instance (s : PlaybackSchedule) : Decidable (Interactive s) := by
  unfold Interactive; infer_instance
instance (s : PlaybackSchedule) : Decidable (ReversedTime s) := by
  unfold ReversedTime; infer_instance

/-- `AudioIO::PlaybackSchedule::ClampTrackTime` (AudioIO.cpp:2960). -/
def ClampTrackTime (s : PlaybackSchedule) (trackTime : ℚ) : ℚ :=
  if ReversedTime s then max s.mT1 (min s.mT0 trackTime)
  else max s.mT0 (min s.mT1 trackTime)

/-- `AudioIO::PlaybackSchedule::LimitTrackTime` (AudioIO.cpp:2953). -/
def LimitTrackTime (s : PlaybackSchedule) : ℚ :=
  ClampTrackTime s (GetTrackTime s)

/-- `AudioIO::PlaybackSchedule::NormalizeTrackTime` (AudioIO.cpp:2968):
read the track time (unclamped in interactive modes, clamped otherwise),
then jump over the cut-preview gap. -/
def NormalizeTrackTime (s : PlaybackSchedule) : ℚ :=
  let absoluteTime := if Interactive s then GetTrackTime s else LimitTrackTime s
  if 0 < s.mCutPreviewGapLen ∧ s.mCutPreviewGapStart < absoluteTime then
    absoluteTime + s.mCutPreviewGapLen
  else absoluteTime

/-- `AudioIO::PlaybackSchedule::Overruns` (AudioIO.cpp:5499). -/
def Overruns (s : PlaybackSchedule) (trackTime : ℚ) : Prop :=
  if ReversedTime s then trackTime ≤ s.mT1 else s.mT1 ≤ trackTime

instance (s : PlaybackSchedule) (t : ℚ) : Decidable (Overruns s t) := by
  unfold Overruns; split <;> infer_instance

/-- `AudioIO::PlaybackSchedule::PassIsComplete` (AudioIO.cpp:5491). -/
def PassIsComplete (s : PlaybackSchedule) : Bool :=
  if Scrubbing s then false
  else decide (Overruns s (GetTrackTime s))

end PlaybackSchedule

/-! ## RecordingSchedule -/

/-- The fields of `AudioIO::RecordingSchedule` (declared in AudioIO.h, set
up at AudioIO.cpp:1954-1963): pre-roll seconds, latency-correction seconds,
total recording duration, consumed position, and the once-per-recording
latency-corrected flag. -/
structure RecordingSchedule where
  mPreRoll : ℚ
  mLatencyCorrection : ℚ
  mDuration : ℚ
  mPosition : ℚ
  mLatencyCorrected : Bool

namespace RecordingSchedule

/-- Modelled from the spec (the accessor lives in AudioIO.h): the total
correction applied to captured audio is the accumulated latency-correction
seconds net of the pre-roll played before the recording start point. -/
def TotalCorrection (r : RecordingSchedule) : ℚ :=
  r.mLatencyCorrection - r.mPreRoll

/-- `AudioIO::RecordingSchedule::Consumed` (AudioIO.cpp:5612). -/
def Consumed (r : RecordingSchedule) : ℚ :=
  max 0 (r.mPosition + TotalCorrection r)

/-- `AudioIO::RecordingSchedule::ToConsume` (AudioIO.cpp:5607). -/
def ToConsume (r : RecordingSchedule) : ℚ :=
  r.mDuration - Consumed r

/-- `AudioIO::RecordingSchedule::ToDiscard` (AudioIO.cpp:5617). -/
def ToDiscard (r : RecordingSchedule) : ℚ :=
  max 0 (-(r.mPosition + TotalCorrection r))

end RecordingSchedule

/-! ## Stream-activity queries and GetStreamTime -/

/-- Modelled from the spec: the sentinel track-time value returned by
position queries on an inactive stream (`BAD_STREAM_TIME` in AudioIO.h),
far outside any real track time. -/
def BAD_STREAM_TIME : ℚ := -1000000000

/-- The state consulted by `AudioIO::IsStreamActive` and
`AudioIO::GetStreamTime`: whether the PortAudio stream object exists
(`mPortStreamV19` non-null), the answer the external
`Pa_IsStreamActive` query would give, the MIDI flags, and the playback
schedule. -/
structure StreamState where
  mPortStreamV19 : Bool
  paStreamActive : Bool
  mMidiStreamActive : Bool
  mMidiOutputComplete : Bool
  mPlaybackSchedule : PlaybackSchedule

/-- `AudioIO::IsStreamActive` (AudioIO.cpp:2860): active when the PortAudio
stream exists and reports active, or when MIDI output is still running. -/
def IsStreamActive (a : StreamState) : Bool :=
  (a.mPortStreamV19 && a.paStreamActive) ||
    (a.mMidiStreamActive && !a.mMidiOutputComplete)

/-- `AudioIO::GetStreamTime` (AudioIO.cpp:3006). -/
def GetStreamTime (a : StreamState) : ℚ :=
  if !IsStreamActive a then BAD_STREAM_TIME
  else a.mPlaybackSchedule.NormalizeTrackTime

/-! ## PlaybackSchedule::TrackTimeUpdate (AudioIO.cpp:5504-5564) -/

/-- The unwarped loop-wrap `while (Overruns(time)) time -= mT1 - mT0`
(AudioIO.cpp:5554-5561).  The C loop is unbounded; the model carries fuel,
and the theorems below supply enough for the loop to reach its real exit
condition. -/
def PlaybackSchedule.wrapLoop (s : PlaybackSchedule) : ℕ → ℚ → ℚ
  | 0, time => time
  | fuel + 1, time =>
    if s.Overruns time then s.wrapLoop fuel (time - (s.mT1 - s.mT0))
    else time

/-- The warped do-loop of `TrackTimeUpdate` (AudioIO.cpp:5522-5548), with
fuel for the unbounded C do-loop: solve the warp for the remaining real
time (shortcutting to `mT1` when the memoized full-pass total shows the
remainder overshoots); on a looped overrun, subtract the warped length from
the old time to `mT1` (memoizing the full-loop total when the old time was
`mT0`), restart from `mT0` and repeat.  The uninitialized C local `total`
is modelled as 0; it is only read after `foundTotal` is set, by which time
it has been assigned. -/
def PlaybackSchedule.warpLoop (s : PlaybackSchedule) (tt : TimeTrackModel) :
    ℕ → ℚ → ℚ → Bool → ℚ → ℚ
  | 0, time, _, _, _ => time
  | fuel + 1, time, realElapsed, foundTotal, total =>
    let oldTime := time
    let time1 :=
      if foundTotal = true ∧ |total| < |realElapsed| then s.mT1
      else tt.SolveWarpedLength time realElapsed
    if s.Looping ∧ s.Overruns time1 then
      let delta :=
        if foundTotal = true ∧ oldTime = s.mT0 then total
        else tt.ComputeWarpedLength oldTime s.mT1
      let foundTotal2 := foundTotal || decide (oldTime = s.mT0)
      let total2 :=
        if foundTotal = false ∧ oldTime = s.mT0 then tt.ComputeWarpedLength oldTime s.mT1
        else total
      s.warpLoop tt fuel s.mT0 (realElapsed - delta) foundTotal2 total2
    else time1

/-- `PlaybackSchedule::TrackTimeUpdate` (AudioIO.cpp:5504): no-op in
interactive modes; the increment is negated for reversed play; with a time
track, snap to `mT0` when the loop is degenerate (`|mT0 - mT1| < 1e-9`,
the source's defense against a non-terminating do-loop), else run the
warped do-loop; without one, add the increment and, when looping, wrap by
whole loop lengths while the time overruns `mT1`. -/
def PlaybackSchedule.TrackTimeUpdate (s : PlaybackSchedule) (fuel : ℕ)
    (realElapsed : ℚ) : PlaybackSchedule :=
  if s.Interactive then s
  else
    let realElapsed2 := if s.ReversedTime then -realElapsed else realElapsed
    let time := s.GetTrackTime
    match s.mTimeTrack with
    | some tt =>
      if |s.mT0 - s.mT1| < 1 / 1000000000 then s.SetTrackTime s.mT0
      else s.SetTrackTime (s.warpLoop tt fuel time realElapsed2 false 0)
    | none =>
      let time2 := time + realElapsed2
      let time3 := if s.Looping then s.wrapLoop fuel time2 else time2
      s.SetTrackTime time3

/-- The identity warp, for concrete degenerate-loop schedules. -/
def idWarp : TimeTrackModel := ⟨fun x => x, fun x => x⟩

/-- The double-speed warp `W x = 2x`, a concrete strictly monotone warp. -/
def doubleWarp : TimeTrackModel := ⟨fun x => 2 * x, fun y => y / 2⟩

/-- Concrete looped schedule for claim C5's scenario: a 0.5 s selection
`[0, 1/2]` with no time track, track time at `mT0`. -/
def schedLoopC5 : PlaybackSchedule :=
  ⟨0, 1/2, 0, PlayMode.PLAY_LOOPED, 0, 0, none, 0, 1/2⟩

/-- Concrete looped schedule for claim C5's witness of the unwarped part:
track time `1/10` inside `[0, 1/2)`. -/
def wSchedC5 : PlaybackSchedule :=
  ⟨0, 1/2, 1/10, PlayMode.PLAY_LOOPED, 0, 0, none, 0, 1/2⟩

/-- Concrete warped looped schedule for claim C5's witness: selection
`[0, 1]` under the double warp (warped loop length 2), track time `1/4`. -/
def wSchedC5w : PlaybackSchedule :=
  ⟨0, 1, 1/4, PlayMode.PLAY_LOOPED, 0, 0, some doubleWarp, 0, 2⟩

/-- Concrete degenerate warped looped schedule for claim C5's
counterexample: selection `[0, 1e-10]` (shorter than the source's `1e-9`
defensive threshold) under the identity warp, track time strictly inside
the selection. -/
def ceSchedC5 : PlaybackSchedule :=
  ⟨0, 1/10000000000, 1/20000000000, PlayMode.PLAY_LOOPED, 0, 0, some idWarp, 0,
    1/10000000000⟩

/-! ## ScrubQueue (AudioIO.cpp:546-978)

The work queue coordinating the UI thread (Producer), the audio thread
(Transformer) and the PortAudio thread (Consumer) during scrub play: a ring
of `Size = 10` entries partitioned by three indices.  The source stores the
indices as `unsigned` and reduces explicitly modulo `Size`; the model uses
`Fin 10`, whose addition is the same mod-10 arithmetic.  The mutex-guarded
critical sections execute atomically here (each operation is one step), and
the Transformer's blocking wait on the condition variable is modelled as
already satisfied when the operation runs. -/

/-- `ScrubbingOptions` (declared in tracks/ui/Scrubbing.h, absent from the
snapshot).  Modelled from the spec and its uses in AudioIO.cpp: seek
semantics (`adjustStart`), speed-based end computation, min/max speed
clamps, project sample bounds, minimum stutter duration, and the static
`MinAllowedScrubSpeed()` floor below which only silence is enqueued. -/
structure ScrubbingOptions where
  adjustStart : Bool
  enqueueBySpeed : Bool
  minSpeed : ℚ
  maxSpeed : ℚ
  minSample : ℤ
  maxSample : ℤ
  minStutter : ℤ
  minAllowedScrubSpeed : ℚ

/-- `AudioIO::ScrubQueue::Entry` (AudioIO.cpp:786-942): start, end and goal
samples, the interval's duration in samples, and the played-so-far count.
The default constructor zeroes every field. -/
structure ScrubEntry where
  mS0 : ℤ
  mS1 : ℤ
  mGoal : ℤ
  mDuration : ℤ
  mPlayed : ℤ
deriving DecidableEq

/-- `Entry::Init` (AudioIO.cpp:796-909): speed clamping, duration trimming,
out-of-bounds clamping, stutter rejection and seek-side start adjustment.
Returns the success flag, the entry after the call, and the (possibly
trimmed) duration; on the stutter-rejection failure path the entry keeps
its old fields except `mGoal`, which the source assigns before that test.
`lrint` is modelled by `lrintQ` and the `sampleCount(double)` conversion by
`truncQ`. -/
def ScrubEntry.Init (e : ScrubEntry) (previous : Option ScrubEntry)
    (s0In s1In : ℤ) (durationIn : ℤ) (options : ScrubbingOptions) :
    Bool × ScrubEntry × ℤ :=
  let adjustStart := options.adjustStart
  let speed0 : ℚ := ((|s1In - s0In| : ℤ) : ℚ) / (durationIn : ℚ)
  let minSpeed0 := min options.minSpeed options.maxSpeed
  let c1 : Bool := !adjustStart && decide (options.maxSpeed < speed0)
  let c2 : Bool := !adjustStart &&
    previous.elim false (fun p => decide (0 ≤ p.mGoal) && decide (p.mGoal = s1In))
  let speed1 := if c1 then options.maxSpeed else speed0
  let minSpeed1 := if c1 then minSpeed0 else if c2 then options.maxSpeed else minSpeed0
  let goal : ℤ := if c1 || c2 then s1In else -1
  let adjusted1 := c1 || c2
  let c3 : Bool := decide (speed1 < minSpeed1)
  let duration1 : ℤ :=
    if c3 then max 0 (lrintQ (speed1 * (durationIn : ℚ) / minSpeed1)) else durationIn
  let speed2 := if c3 then minSpeed1 else speed1
  let adjusted2 := adjusted1 || c3
  let c4 : Bool := decide (speed2 < options.minAllowedScrubSpeed)
  let speed3 := if c4 then 0 else speed2
  let adjusted3 := adjusted2 || c4
  let s1a : ℤ :=
    if adjusted3 && !adjustStart then
      let diff := lrintQ (speed3 * (duration1 : ℚ))
      if s0In < s1In then s0In + diff else s0In - diff
    else s1In
  let bounds : Option (Bool × ℤ × ℤ) :=
    if s1a ≠ s0In then
      let newS1 := max options.minSample (min options.maxSample s1a)
      let newDuration : ℤ :=
        if s1a ≠ newS1 then
          max 0 (truncQ ((duration1 : ℚ) * ((newS1 - s0In : ℤ) : ℚ)
            / ((s1a - s0In : ℤ) : ℚ)))
        else duration1
      if adjustStart = true ∧ newDuration < options.minStutter then none
      else if newDuration = 0 then some (true, s0In, duration1)
      else if s1a ≠ newS1 then some (false, newS1, newDuration)
      else some (false, s1a, duration1)
    else some (false, s1a, duration1)
  match bounds with
  | none => (false, { e with mGoal := goal }, duration1)
  | some (silent, s1b, duration2) =>
    let s0b : ℤ :=
      if adjustStart && !silent then
        let diff := lrintQ (min options.maxSpeed speed3 * (duration2 : ℚ))
        if s0In < s1b then s1b - diff else s1b + diff
      else s0In
    (true, ⟨s0b, s1b, goal, duration2, 0⟩, duration2)

/-- `Entry::InitSilent` (AudioIO.cpp:911). -/
def ScrubEntry.InitSilent (previous : ScrubEntry) (duration : ℤ) : ScrubEntry :=
  ⟨previous.mS1, previous.mS1, previous.mGoal, duration, 0⟩

/-- `Entry::GetTime` (AudioIO.cpp:919).  An abandoned entry has
`mDuration = 0`; the C division then yields an IEEE non-finite value, here
`ℚ`'s `x / 0 = 0` — the claims below never consult this value. -/
def ScrubEntry.GetTime (e : ScrubEntry) (rate : ℚ) : ℚ :=
  ((e.mS0 : ℚ) + ((e.mS1 - e.mS0 : ℤ) : ℚ) * (e.mPlayed : ℚ) / (e.mDuration : ℚ))
    / rate

/-- `AudioIO::ScrubQueue` state (AudioIO.cpp:962-977). -/
structure ScrubQueue where
  mEntries : Fin 10 → ScrubEntry
  mTrailingIdx : Fin 10
  mMiddleIdx : Fin 10
  mLeadingIdx : Fin 10
  mRate : ℚ
  mLastScrubTimeMillis : ℤ
  mLastTransformerTimeMillis : ℤ
  mCredit : ℤ
  mDebt : ℤ
  mMaxDebt : ℤ
  mNudged : Bool

/-- `ScrubQueue::Duration::duration` (AudioIO.cpp:956): the samples covered
by the wall-clock interval since the last enqueue,
`static_cast<long long>(mRate * (clockTime - mLastScrubTimeMillis)/1000)`. -/
def scrubDuration (q : ScrubQueue) (clockTime : ℤ) : ℤ :=
  truncQ (q.mRate * ((clockTime - q.mLastScrubTimeMillis : ℤ) : ℚ) / 1000)

/-- The `ScrubQueue` constructor (AudioIO.cpp:548-580): indices start as
trailing 0, middle 1, leading 1; the first interval is placed at index 1
(advancing leading to 2 on success; the `Duration` helper commits the new
clock time only then), and the trailing slot 0 is given a one-sample
already-played entry so the play indicator starts out unconfused.
`constructClockMillis` is the `wxGetLocalTimeMillis()` sample taken by the
`Duration` helper inside the constructor body. -/
def mkScrubQueue (t0 t1 : ℚ) (startClockMillis : ℤ) (rate : ℚ) (maxDebt : ℤ)
    (options : ScrubbingOptions) (constructClockMillis : ℤ) : ScrubQueue :=
  let base : ScrubQueue :=
    { mEntries := fun _ => ⟨0, 0, 0, 0, 0⟩
      mTrailingIdx := 0
      mMiddleIdx := 1
      mLeadingIdx := 1
      mRate := rate
      mLastScrubTimeMillis := startClockMillis
      mLastTransformerTimeMillis := -1
      mCredit := 0
      mDebt := 0
      mMaxDebt := maxDebt
      mNudged := false }
  let s0 := max options.minSample (min options.maxSample (lrintQ (t0 * rate)))
  let s1 := lrintQ (t1 * rate)
  let dur := scrubDuration base constructClockMillis
  let actualDuration := max 1 dur
  let initR := (base.mEntries 1).Init none s0 s1 actualDuration options
  let q1 :=
    if initR.1 then
      { base with
        mEntries := Function.update base.mEntries 1 initR.2.1
        mLeadingIdx := 2
        mLastScrubTimeMillis := constructClockMillis }
    else base
  let trailingEntry : ScrubEntry := ⟨s0, s0, (q1.mEntries 0).mGoal, 1, 1⟩
  { q1 with mEntries := Function.update q1.mEntries 0 trailingEntry }

/-- `ScrubQueue::Producer` (AudioIO.cpp:600-663): may advance `mLeadingIdx`
(twice, when a silent filler is enqueued after trimming) but never onto
`mTrailingIdx`; fails when the ring is full or the computed duration is
non-positive.  The `Duration` destructor commits `mLastScrubTimeMillis` to
the new clock time on every path except ring-full (where it is never
constructed) and `Init` failure (where it is cancelled). -/
def ScrubQueue.Producer (q : ScrubQueue) (endOrSpeed : ℚ)
    (options : ScrubbingOptions) (clockTime : ℤ) : Bool × ScrubQueue :=
  let next := q.mLeadingIdx + 1
  if next ≠ q.mTrailingIdx then
    let previousIdx := q.mLeadingIdx + 9
    let s0 := (q.mEntries previousIdx).mS1
    let origDuration := scrubDuration q clockTime
    if origDuration ≤ 0 then
      (false, { q with mLastScrubTimeMillis := clockTime })
    else
      let s1 : ℤ :=
        if options.enqueueBySpeed then
          s0 + lrintQ ((origDuration : ℚ) * endOrSpeed)
        else lrintQ (endOrSpeed * q.mRate)
      let initR := (q.mEntries q.mLeadingIdx).Init (some (q.mEntries previousIdx))
        s0 s1 origDuration options
      if initR.1 then
        let actualDuration := initR.2.2
        let q1 := { q with
          mEntries := Function.update q.mEntries q.mLeadingIdx initR.2.1
          mLeadingIdx := next }
        let q2 :=
          if actualDuration < origDuration then
            let next2 := q1.mLeadingIdx + 1
            if next2 ≠ q1.mTrailingIdx then
              let prev2 := q1.mEntries (q1.mLeadingIdx + 9)
              { q1 with
                mEntries := Function.update q1.mEntries q1.mLeadingIdx
                  (ScrubEntry.InitSilent prev2 (origDuration - actualDuration))
                mLeadingIdx := next2 }
            else q1
          else q1
        (true, { q2 with mLastScrubTimeMillis := clockTime })
      else
        (false, { q with mEntries := Function.update q.mEntries q.mLeadingIdx initR.2.1 })
  else (false, q)

/-- The debt-cancellation loop of `ScrubQueue::Transformer`
(AudioIO.cpp:700-728): while debt above the maximum remains and queued work
exists, discard whole queued entries (zeroing their duration and advancing
`mMiddleIdx`) or shrink the front of the next entry.  The C loop is
unbounded; the model carries fuel, and every caller passes fuel 10, which
is strictly more than the ring distance from middle to leading can be, so
the fuel never runs out. -/
def ScrubQueue.debtLoop (leading : Fin 10) :
    ℕ → (Fin 10 → ScrubEntry) → Fin 10 → ℤ → ℤ →
      (Fin 10 → ScrubEntry) × Fin 10 × ℤ × ℤ
  | 0, entries, middle, debt, toDiscard => (entries, middle, debt, toDiscard)
  | fuel + 1, entries, middle, debt, toDiscard =>
    if 0 < toDiscard ∧ middle ≠ leading then
      let entry := entries middle
      let dur := entry.mDuration
      if dur ≤ toDiscard then
        ScrubQueue.debtLoop leading fuel
          (Function.update entries middle { entry with mDuration := 0 })
          (middle + 1) (debt - dur) (toDiscard - dur)
      else
        let start := entry.mS0
        let endS := entry.mS1
        let adjustment : ℤ :=
          truncQ (((|endS - start| : ℤ) : ℚ) * ((toDiscard : ℚ) / (dur : ℚ)))
        let start2 := if start ≤ endS then start + adjustment else start - adjustment
        (Function.update entries middle
            { entry with mS0 := start2, mDuration := dur - toDiscard },
          middle, debt - toDiscard, 0)
    else (entries, middle, debt, toDiscard)

/-- Result of `ScrubQueue::Transformer`: the out-parameters and the queue. -/
structure TransformerResult where
  startSample : ℤ
  endSample : ℤ
  duration : ℤ
  queue : ScrubQueue

/-- `ScrubQueue::Transformer` (AudioIO.cpp:665-747): clear the nudge flag
(the blocking wait is modelled as satisfied), run the debt check when
re-entering the critical section with prior timing data and queued work,
then dequeue the middle entry (advancing `mMiddleIdx`, never past
`mLeadingIdx`) or report the `-1` sentinel.  `checkDebt` is true when the
audio thread re-enters the critical section (fresh `cleanup`). -/
def ScrubQueue.Transformer (q : ScrubQueue) (now : ℤ) (checkDebt : Bool) :
    TransformerResult :=
  let q0 : ScrubQueue := { q with mNudged := false }
  let q1 : ScrubQueue :=
    if checkDebt = true ∧ 0 ≤ q0.mLastTransformerTimeMillis ∧
        q0.mMiddleIdx ≠ q0.mLeadingIdx then
      let interval : ℚ := ((now - q0.mLastTransformerTimeMillis : ℤ) : ℚ) / 1000
      let deficit : ℤ := truncQ (interval * q0.mRate) - q0.mCredit
      let debt0 := q0.mDebt + deficit
      let r := ScrubQueue.debtLoop q0.mLeadingIdx 10 q0.mEntries q0.mMiddleIdx
        debt0 (debt0 - q0.mMaxDebt)
      { q0 with
        mEntries := r.1
        mMiddleIdx := r.2.1
        mDebt := r.2.2.1
        mCredit := 0 }
    else q0
  let res : ℤ × ℤ × ℤ × ScrubQueue :=
    if q1.mMiddleIdx ≠ q1.mLeadingIdx then
      let entry := q1.mEntries q1.mMiddleIdx
      (entry.mS0, entry.mS1, entry.mDuration,
        { q1 with
          mMiddleIdx := q1.mMiddleIdx + 1
          mCredit := q1.mCredit + entry.mDuration })
    else (-1, -1, -1, q1)
  let q2 := res.2.2.2
  let q3 := if checkDebt then { q2 with mLastTransformerTimeMillis := now } else q2
  ⟨res.1, res.2.1, res.2.2.1, q3⟩

/-- The entry-consuming loop of `ScrubQueue::Consumer` (AudioIO.cpp:762-781)
with fuel (the C loop is bounded by the ring size; fuel 10 suffices since
`mTrailingIdx` advances on every continuing iteration and stops at
`mMiddleIdx`). -/
def ScrubQueue.consumerLoop (middle : Fin 10) :
    ℕ → (Fin 10 → ScrubEntry) → Fin 10 → ℕ → (Fin 10 → ScrubEntry) × Fin 10
  | 0, entries, trailing, _ => (entries, trailing)
  | fuel + 1, entries, trailing, frames =>
    let entry := entries trailing
    let remaining := entry.mDuration - entry.mPlayed
    if remaining ≤ (frames : ℤ) then
      let frames2 := frames - remaining.toNat
      let entries2 := Function.update entries trailing
        { entry with mPlayed := entry.mDuration }
      let next := trailing + 1
      if next = middle then (entries2, trailing)
      else ScrubQueue.consumerLoop middle fuel entries2 next frames2
    else
      (Function.update entries trailing
        { entry with mPlayed := entry.mPlayed + (frames : ℤ) }, trailing)

/-- `ScrubQueue::Consumer` (AudioIO.cpp:749-783): mark entries consumed,
advancing `mTrailingIdx` but never onto `mMiddleIdx`, and report the
fractional track-time position of the trailing entry. -/
def ScrubQueue.Consumer (q : ScrubQueue) (frames : ℕ) : ℚ × ScrubQueue :=
  let r := ScrubQueue.consumerLoop q.mMiddleIdx 10 q.mEntries q.mTrailingIdx frames
  ((r.1 r.2).GetTime q.mRate, { q with mEntries := r.1, mTrailingIdx := r.2 })

/-- `ScrubQueue::Nudge` (AudioIO.cpp:593). -/
def ScrubQueue.Nudge (q : ScrubQueue) : ScrubQueue := { q with mNudged := true }

/-- `ScrubQueue::LastTimeInQueue` (AudioIO.cpp:583). -/
def ScrubQueue.LastTimeInQueue (q : ScrubQueue) : ℚ :=
  ((q.mEntries (q.mLeadingIdx + 9)).mS1 : ℚ) / q.mRate

/-- One call into the scrub queue from any of the three threads. -/
inductive ScrubOp where
  | producer (endOrSpeed : ℚ) (options : ScrubbingOptions) (clockTime : ℤ)
  | transformer (now : ℤ) (checkDebt : Bool)
  | consumer (frames : ℕ)
  | nudge

/-- Apply one scrub-queue call to the state. -/
def scrubStep (q : ScrubQueue) : ScrubOp → ScrubQueue
  | ScrubOp.producer e o c => (q.Producer e o c).2
  | ScrubOp.transformer now cd => (q.Transformer now cd).queue
  | ScrubOp.consumer frames => (q.Consumer frames).2
  | ScrubOp.nudge => q.Nudge

/-- Forward cyclic distance from `a` to `b` on the ring of 10 slots. -/
def ringDist (a b : Fin 10) : ℕ := (b.val + 10 - a.val) % 10

/-- The cyclic-ordering invariant of the three queue indices, following the
source's comments: trailing ≤ middle ≤ leading modulo the capacity, the
trailing (play-indicator) entry strictly behind the middle, and leading
never wrapping onto trailing. -/
def ScrubInv (q : ScrubQueue) : Prop :=
  1 ≤ ringDist q.mTrailingIdx q.mMiddleIdx ∧
  ringDist q.mTrailingIdx q.mMiddleIdx + ringDist q.mMiddleIdx q.mLeadingIdx ≤ 9

/-! ## FillBuffers, capture side: latency correction (claim C1)

The fragment at AudioIO.cpp:4041-4198 that the claim concerns: on each
recording pass, for each capture track, apply the once-per-recording
latency correction (inject initial silence for a non-negative total
correction; discard samples from the capture ring buffer for a negative
one), then advance `mPosition` by the commonly available sample count and
store the pass's `latencyCorrected` conjunction.  The crossfade/resampling/
append pipeline that follows the correction is not consulted by the claim
and is abstracted to the returned amounts. -/

/-- `AudioIO::GetCommonlyAvailCapture` (AudioIO.cpp:3353): minimum
`AvailForGet` over the capture ring buffers. -/
def commonlyAvailCapture : List RingBuffer → ℕ
  | [] => 0
  | rb :: rest => rest.foldl (fun m b => min m b.AvailForGet) rb.AvailForGet

/-- Outcome of the latency-correction block (AudioIO.cpp:4069-4096) for one
capture track: how many samples of initial silence were appended to the
track, how many samples were discarded from its ring buffer, the buffer
afterwards, and this track's contribution to the pass's `latencyCorrected`
flag. -/
structure LatencyCorrectionOutcome where
  silencePrepended : ℕ
  discarded : ℕ
  buffer : RingBuffer
  latencyCorrected : Bool

/-- The latency-correction block (AudioIO.cpp:4069-4096) for one capture
track.  `avail` is `GetCommonlyAvailCapture()` noted before the track loop;
the positive branch computes `floor(correction * mRate * mFactor)` samples
of silence, the negative branch discards
`min(avail, floor(ToDiscard() * mRate))` samples and clears the flag when
fewer than the target could be discarded. -/
def latencyCorrectionStep (rs : RecordingSchedule) (rate factor : ℚ)
    (avail : ℕ) (rb : RingBuffer) : LatencyCorrectionOutcome :=
  if rs.mLatencyCorrected then ⟨0, 0, rb, true⟩
  else
    let correction := rs.TotalCorrection
    if 0 ≤ correction then
      let size : ℕ := (⌊correction * rate * factor⌋).toNat
      ⟨size, 0, rb, true⟩
    else
      let size : ℕ := (⌊rs.ToDiscard * rate⌋).toNat
      let d := rb.Discard (min avail size)
      ⟨0, d.1, d.2, !decide (d.1 < size)⟩

/-- Result of one recording pass of `FillBuffers` restricted to the
latency-correction bookkeeping. -/
structure CapturePassResult where
  schedule : RecordingSchedule
  buffers : List RingBuffer
  silencePrepended : List ℕ
  discarded : List ℕ

/-- One recording pass of `FillBuffers` (AudioIO.cpp:4041-4198) restricted
to the latency-correction bookkeeping: run the correction block on every
capture track, then advance `mPosition` by `avail / mRate` and store the
conjunction of the per-track `latencyCorrected` contributions
(AudioIO.cpp:4196-4198). -/
def fillBuffersLatency (rs : RecordingSchedule) (rate factor : ℚ)
    (buffers : List RingBuffer) : CapturePassResult :=
  let avail := commonlyAvailCapture buffers
  let results := buffers.map (latencyCorrectionStep rs rate factor avail)
  let flag := results.foldl (fun b r => b && r.latencyCorrected) true
  { schedule := { rs with
      mPosition := rs.mPosition + (avail : ℚ) / rate
      mLatencyCorrected := flag }
    buffers := results.map (fun r => r.buffer)
    silencePrepended := results.map (fun r => r.silencePrepended)
    discarded := results.map (fun r => r.discarded) }

/-- The injected-silence count in the words of claim C1 (the spec's
`round(correction*rate)`), for comparison with the source's
`floor(correction * mRate * mFactor)`. -/
def latencySilenceClaimed (rs : RecordingSchedule) (rate : ℚ) : ℤ :=
  round (rs.TotalCorrection * rate)

/-! ## FillBuffers, playback side: silence padding (claim C6) -/

/-- One iteration of the playback do-loop of `FillBuffers` for one track
(AudioIO.cpp:3928-3976), abstracting the mixer: `mixerOut` stands for the
value `Process(frames)` would return (the source asserts it is at most
`frames`).  The mixer output is put into the track's ring buffer, and when
the mixer came up short the shortfall is padded with silence — but only
when the play mode is not straight play (`!PlayingStraight()`). -/
def fillBuffersPlaybackTrack (playMode : PlayMode) (mSilentScrub progress : Bool)
    (frames mixerOut : ℕ) (rb : RingBuffer) : RingBuffer :=
  let silent := (decide (playMode = PlayMode.PLAY_SCRUB) ||
      decide (playMode = PlayMode.PLAY_AT_SPEED)) && mSilentScrub
  let run := progress && !silent && decide (0 < frames)
  let processed := if run then mixerOut else 0
  let rb1 := if run then (rb.Put processed).2 else rb
  if decide (processed < frames) && !decide (playMode = PlayMode.PLAY_STRAIGHT) then
    (rb1.Put (frames - processed)).2
  else rb1

/-- The playback for-loop over all tracks in one iteration of the do-loop
(AudioIO.cpp:3928-3976): each pair carries a track's mixer output and its
ring buffer. -/
def fillBuffersPlaybackPass (playMode : PlayMode) (mSilentScrub progress : Bool)
    (frames : ℕ) (tracks : List (ℕ × RingBuffer)) : List RingBuffer :=
  tracks.map (fun p => fillBuffersPlaybackTrack playMode mSilentScrub progress frames p.1 p.2)

/-! ## AudioCallback, capture side: dropout detection (claim C7) -/

/-- Result of the capture half of the hardware callback. -/
structure CaptureCallbackResult where
  len : ℕ
  buffers : List RingBuffer
  mLostCaptureIntervals : List (ℚ × ℚ)
  mLostSamples : ℕ

/-- `len` as computed at AudioIO.cpp:5246-5254: `framesPerBuffer` clipped
by every capture ring buffer's free space, then zeroed when the
`mSimulateRecordingErrors` test hook fires. -/
def captureLen (framesPerBuffer : ℕ) (buffers : List RingBuffer)
    (spuriousSimulatedError : Bool) : ℕ :=
  let len0 := buffers.foldl (fun l rb => min l rb.AvailForPut) framesPerBuffer
  if spuriousSimulatedError then 0 else len0

/-- The capture half of `audacityAudioCallback` (AudioIO.cpp:5246-5322):
a lost-capture interval of duration `(framesPerBuffer - len)/rate` starting
at `trackTime + len/rate + latencyCorrection` is recorded when dropout
detection is on and either an input overflow was flagged (with upstream
detection on) or `len < framesPerBuffer`; `mLostSamples` accumulates the
shortfall; finally `len` samples are put into every capture ring buffer
(the un-interleaving and format conversion do not change the count). -/
def audioCallbackCapture (framesPerBuffer : ℕ) (buffers : List RingBuffer)
    (mDetectDropouts mDetectUpstreamDropouts inputError spuriousSimulatedError : Bool)
    (trackTime latencyCorrection rate : ℚ)
    (intervals : List (ℚ × ℚ)) (lostSamples : ℕ) : CaptureCallbackResult :=
  let len := captureLen framesPerBuffer buffers spuriousSimulatedError
  let intervals' :=
    if mDetectDropouts &&
        ((mDetectUpstreamDropouts && inputError) || decide (len < framesPerBuffer)) then
      intervals ++ [(trackTime + (len : ℚ) / rate + latencyCorrection,
        ((framesPerBuffer - len : ℕ) : ℚ) / rate)]
    else intervals
  let lost' := if len < framesPerBuffer then lostSamples + (framesPerBuffer - len) else lostSamples
  let buffers' := if 0 < len then buffers.map (fun rb => (rb.Put len).2) else buffers
  ⟨len, buffers', intervals', lost'⟩

/-! ## Spec-side definition and concrete states for claim C4 -/

/-- The completion predicate in the words of claim C4 (a reading of the
spec, for comparison with `PassIsComplete` from the source): true when the
current track time has crossed `T1` in the direction of playback, or `T0`
if playing in reverse (i.e. when `T1 < T0`); false while scrubbing. -/
def PassIsCompleteClaimed (s : PlaybackSchedule) : Bool :=
  if s.Scrubbing then false
  else if s.mT1 < s.mT0 then decide (s.GetTrackTime ≤ s.mT0)
  else decide (s.mT1 ≤ s.GetTrackTime)

/-- A neutral forward schedule used to build concrete stream states. -/
def schedDefault : PlaybackSchedule :=
  ⟨0, 1, 0, PlayMode.PLAY_STRAIGHT, 0, 0, none, 0, 1⟩

/-- Concrete reversed schedule for claim C4: straight reverse play over
`[4,1]` with current track time `3`, strictly between the bounds. -/
def ceSchedC4 : PlaybackSchedule :=
  ⟨4, 1, 3, PlayMode.PLAY_STRAIGHT, 0, 0, none, 0, 1⟩

/-- Concrete inactive stream state (no PortAudio stream, no MIDI). -/
def inactiveStreamState : StreamState := ⟨false, false, false, false, schedDefault⟩

/-- Concrete active stream state (PortAudio stream open and active). -/
def activeStreamState : StreamState := ⟨true, true, false, false, schedDefault⟩

/-- Concrete recording schedule for claim C9: position has run past the
scheduled duration (duration 1 s, position 2 s, no correction). -/
def ceRecSched : RecordingSchedule := ⟨0, 0, 1, 2, false⟩

/-- Concrete recording schedule within its scheduled duration. -/
def wRecSched : RecordingSchedule := ⟨0, 0, 1, 0, false⟩

/-- Concrete recording schedule for claim C1: total correction `3/20` s at
rate 10 Hz, so `correction * rate = 3/2`, where floor and round differ. -/
def ceRecSchedC1 : RecordingSchedule := ⟨0, 3/20, 10, 0, false⟩

/-- Concrete capture ring buffer: capacity 100, 50 samples stored. -/
def ceBufC1 : RingBuffer := ⟨100, 50⟩

/-- Concrete recording schedule for the C1 witness: negative total
correction of `-2/5` s (4 samples at 10 Hz). -/
def wRecSchedC1 : RecordingSchedule := ⟨0, -2/5, 10, 0, false⟩

/-- Concrete playback ring buffer: capacity 100, empty. -/
def ceBufC6 : RingBuffer := ⟨100, 0⟩

/-- Concrete capture ring buffer for claim C7: capacity 1000 with 600
samples stored, so only 400 frames can be put. -/
def wBufC7 : RingBuffer := ⟨1000, 600⟩

/-- Entries for claim C3's counterexample: a single queued interval of one
sample at slot 1 (between middle 1 and leading 2). -/
def ceEntriesC3 : Fin 10 → ScrubEntry :=
  fun i => if i = 1 then ⟨0, 1, -1, 1, 0⟩ else ⟨0, 0, 0, 0, 0⟩

/-- Concrete scrub queue for claim C3's counterexample: one queued entry of
1 sample, rate 10, zero credit and zero maximum debt, with a previous
Transformer timestamp so the debt check runs. -/
def ceScrubQ : ScrubQueue :=
  { mEntries := ceEntriesC3
    mTrailingIdx := 0
    mMiddleIdx := 1
    mLeadingIdx := 2
    mRate := 10
    mLastScrubTimeMillis := 0
    mLastTransformerTimeMillis := 0
    mCredit := 0
    mDebt := 0
    mMaxDebt := 0
    mNudged := false }

/-- Entries for claim C3's witness: a single queued interval of 20 samples
at slot 1. -/
def wEntriesC3 : Fin 10 → ScrubEntry :=
  fun i => if i = 1 then ⟨0, 20, -1, 20, 0⟩ else ⟨0, 0, 0, 0, 0⟩

/-- Concrete scrub queue for claim C3's witness: one queued entry of 20
samples, enough to absorb the accumulated debt. -/
def wScrubQ : ScrubQueue := { ceScrubQ with mEntries := wEntriesC3 }

/-- Options used by concrete Producer calls. -/
def wOptions : ScrubbingOptions := ⟨false, false, 1, 4, 0, 1000000, 1, 1/100⟩

/-- Concrete scrub queue for claim C8: the ring is full (advancing leading
2 would reach trailing 3). -/
def ceScrubQ8full : ScrubQueue := { ceScrubQ with mTrailingIdx := 3 }

/-- Concrete scrub queue for claim C8: ring not full, but the wall clock
has not advanced since the last enqueue, so the computed duration is 0. -/
def ceScrubQ8dur : ScrubQueue := { ceScrubQ with mLastScrubTimeMillis := 100 }

/-! # Claim theorems -/

/-! ## Shared helper lemmas -/

/-- Folding `min` over a list never exceeds the initial value. -/
theorem foldl_min_le_init (f : RingBuffer → ℕ) (l : List RingBuffer) (a : ℕ) :
    l.foldl (fun m b => min m (f b)) a ≤ a := by
  induction l generalizing a with
  | nil => exact le_refl a
  | cons hd tl ih => exact le_trans (ih (min a (f hd))) (min_le_left _ _)

/-- Folding `min` over a list is at most the value of any member. -/
theorem foldl_min_le_mem (f : RingBuffer → ℕ) (l : List RingBuffer) (a : ℕ)
    {rb : RingBuffer} (h : rb ∈ l) :
    l.foldl (fun m b => min m (f b)) a ≤ f rb := by
  induction l generalizing a with
  | nil => cases h
  | cons hd tl ih =>
    rcases List.mem_cons.mp h with heq | hmem
    · subst heq
      exact le_trans (foldl_min_le_init f tl _) (min_le_right _ _)
    · exact ih _ hmem

/-- `commonlyAvailCapture` is at most each capture buffer's `AvailForGet`. -/
theorem commonlyAvailCapture_le {buffers : List RingBuffer} {rb : RingBuffer}
    (h : rb ∈ buffers) : commonlyAvailCapture buffers ≤ rb.AvailForGet := by
  cases buffers with
  | nil => cases h
  | cons hd tl =>
    rcases List.mem_cons.mp h with heq | hmem
    · subst heq
      exact foldl_min_le_init _ tl _
    · exact foldl_min_le_mem _ tl _ hmem

/-- Folding boolean conjunction equals the initial value conjoined with
`List.all`. -/
theorem foldl_and_eq_all {α : Type} (g : α → Bool) (l : List α) (b : Bool) :
    l.foldl (fun acc x => acc && g x) b = (b && l.all g) := by
  induction l generalizing b with
  | nil => simp
  | cons hd tl ih => simp [ih, Bool.and_assoc]

/-! ## Ring-distance facts for the 10-slot scrub ring -/

/-- Advancing the middle index toward leading (guard `m ≠ l`) preserves the
cyclic ordering. -/
theorem ringDist_step_middle :
    ∀ t m l : Fin 10, 1 ≤ ringDist t m → ringDist t m + ringDist m l ≤ 9 →
      m ≠ l → 1 ≤ ringDist t (m + 1) ∧ ringDist t (m + 1) + ringDist (m + 1) l ≤ 9 := by
  decide

/-- Advancing the leading index (guard `l + 1 ≠ t`) preserves the cyclic
ordering. -/
theorem ringDist_step_leading :
    ∀ t m l : Fin 10, 1 ≤ ringDist t m → ringDist t m + ringDist m l ≤ 9 →
      l + 1 ≠ t → 1 ≤ ringDist t m ∧ ringDist t m + ringDist m (l + 1) ≤ 9 := by
  decide

/-- Advancing the trailing index toward middle (guard `t + 1 ≠ m`) keeps it
strictly behind middle and does not increase the distance. -/
theorem ringDist_step_trailing :
    ∀ t m : Fin 10, 1 ≤ ringDist t m → t + 1 ≠ m →
      1 ≤ ringDist (t + 1) m ∧ ringDist (t + 1) m ≤ ringDist t m := by
  decide

/-- One middle advance shortens the distance to leading by exactly one. -/
theorem ringDist_succ_toward :
    ∀ m l : Fin 10, m ≠ l → ringDist (m + 1) l + 1 = ringDist m l := by
  decide

/-- The ring distance is zero exactly between equal indices. -/
theorem ringDist_eq_zero_iff : ∀ m l : Fin 10, ringDist m l = 0 ↔ m = l := by
  decide

/-- The ring distance never exceeds 9. -/
theorem ringDist_le_nine : ∀ m l : Fin 10, ringDist m l ≤ 9 := by
  decide

/-! ## Claim C2: ScrubQueue index ordering -/

/-- The debt-cancellation loop only advances the middle index toward
leading, preserving the cyclic ordering against any trailing index. -/
theorem debtLoop_indices (leading : Fin 10) (fuel : ℕ) :
    ∀ (entries : Fin 10 → ScrubEntry) (middle : Fin 10) (debt toDiscard : ℤ)
      (t : Fin 10), 1 ≤ ringDist t middle →
      ringDist t middle + ringDist middle leading ≤ 9 →
      1 ≤ ringDist t
          (ScrubQueue.debtLoop leading fuel entries middle debt toDiscard).2.1 ∧
      ringDist t (ScrubQueue.debtLoop leading fuel entries middle debt toDiscard).2.1
        + ringDist (ScrubQueue.debtLoop leading fuel entries middle debt toDiscard).2.1
            leading ≤ 9 := by
  induction fuel with
  | zero =>
    intro entries middle debt toDiscard t h1 h2
    exact ⟨h1, h2⟩
  | succ fuel ih =>
    intro entries middle debt toDiscard t h1 h2
    rw [ScrubQueue.debtLoop]
    dsimp only
    split_ifs with hg hdur hs <;>
      first
      | exact ⟨h1, h2⟩
      | (have hstep := ringDist_step_middle t middle leading h1 h2 hg.2
         exact ih _ _ _ _ t hstep.1 hstep.2)

/-- The consumer loop advances trailing toward (never onto) middle. -/
theorem consumerLoop_trailing (middle : Fin 10) (fuel : ℕ) :
    ∀ (entries : Fin 10 → ScrubEntry) (trailing : Fin 10) (frames : ℕ),
      1 ≤ ringDist trailing middle →
      1 ≤ ringDist (ScrubQueue.consumerLoop middle fuel entries trailing frames).2 middle ∧
      ringDist (ScrubQueue.consumerLoop middle fuel entries trailing frames).2 middle
        ≤ ringDist trailing middle := by
  induction fuel with
  | zero =>
    intro entries trailing frames h1
    exact ⟨h1, le_refl _⟩
  | succ fuel ih =>
    intro entries trailing frames h1
    rw [ScrubQueue.consumerLoop]
    dsimp only
    split_ifs with hrem hnext
    · exact ⟨h1, le_refl _⟩
    · have hstep := ringDist_step_trailing trailing middle h1 hnext
      exact ⟨(ih _ _ _ hstep.1).1, le_trans (ih _ _ _ hstep.1).2 hstep.2⟩
    · exact ⟨h1, le_refl _⟩

/-- `Producer` preserves the index-ordering invariant. -/
theorem producer_preserves_inv (q : ScrubQueue) (e : ℚ) (o : ScrubbingOptions)
    (c : ℤ) (h : ScrubInv q) : ScrubInv (q.Producer e o c).2 := by
  obtain ⟨h1, h2⟩ := h
  unfold ScrubQueue.Producer
  dsimp only
  split_ifs <;>
    simp only [ScrubInv] <;>
    first
    | exact ⟨h1, h2⟩
    | (refine ringDist_step_leading q.mTrailingIdx q.mMiddleIdx q.mLeadingIdx
        h1 h2 ?_
       assumption)
    | (refine ringDist_step_leading q.mTrailingIdx q.mMiddleIdx (q.mLeadingIdx + 1)
        (ringDist_step_leading q.mTrailingIdx q.mMiddleIdx q.mLeadingIdx h1 h2
          (by assumption)).1
        (ringDist_step_leading q.mTrailingIdx q.mMiddleIdx q.mLeadingIdx h1 h2
          (by assumption)).2 ?_
       assumption)

set_option maxHeartbeats 1000000 in
/-- `Transformer` preserves the index-ordering invariant. -/
theorem transformer_preserves_inv (q : ScrubQueue) (now : ℤ) (cd : Bool)
    (h : ScrubInv q) : ScrubInv (q.Transformer now cd).queue := by
  obtain ⟨h1, h2⟩ := h
  have hloop := debtLoop_indices q.mLeadingIdx 10 q.mEntries q.mMiddleIdx
    (q.mDebt + (truncQ (((now - q.mLastTransformerTimeMillis : ℤ) : ℚ) / 1000
        * q.mRate) - q.mCredit))
    (q.mDebt + (truncQ (((now - q.mLastTransformerTimeMillis : ℤ) : ℚ) / 1000
        * q.mRate) - q.mCredit) - q.mMaxDebt)
    q.mTrailingIdx h1 h2
  unfold ScrubQueue.Transformer
  dsimp only
  split_ifs <;> dsimp only at * <;> simp only [ScrubInv] <;>
    first
    | exact ⟨h1, h2⟩
    | exact ringDist_step_middle q.mTrailingIdx q.mMiddleIdx q.mLeadingIdx h1 h2
        (by assumption)
    | exact hloop
    | exact ringDist_step_middle q.mTrailingIdx _ q.mLeadingIdx hloop.1 hloop.2
        (by assumption)

/-- `Consumer` preserves the index-ordering invariant. -/
theorem consumer_preserves_inv (q : ScrubQueue) (frames : ℕ)
    (h : ScrubInv q) : ScrubInv (q.Consumer frames).2 := by
  obtain ⟨h1, h2⟩ := h
  have hloop := consumerLoop_trailing q.mMiddleIdx 10 q.mEntries q.mTrailingIdx
    frames h1
  exact ⟨hloop.1, le_trans (Nat.add_le_add_right hloop.2 _) h2⟩

/-- A freshly constructed queue satisfies the index-ordering invariant. -/
theorem mkScrubQueue_inv (t0 t1 : ℚ) (startClockMillis : ℤ) (rate : ℚ)
    (maxDebt : ℤ) (options : ScrubbingOptions) (constructClockMillis : ℤ) :
    ScrubInv (mkScrubQueue t0 t1 startClockMillis rate maxDebt options
      constructClockMillis) := by
  unfold mkScrubQueue
  dsimp only
  split_ifs
  · exact ⟨(by decide : (1:ℕ) ≤ ringDist (0 : Fin 10) 1),
      (by decide : ringDist (0 : Fin 10) 1 + ringDist (1 : Fin 10) (2 : Fin 10) ≤ 9)⟩
  · exact ⟨(by decide : (1:ℕ) ≤ ringDist (0 : Fin 10) 1),
      (by decide : ringDist (0 : Fin 10) 1 + ringDist (1 : Fin 10) (1 : Fin 10) ≤ 9)⟩

/-- C2: after any sequence of `Producer`, `Transformer`, `Consumer` (and
`Nudge`) calls starting from a freshly constructed `ScrubQueue`, the three
indices keep the cyclic ordering trailing ≤ middle ≤ leading modulo the
ring capacity 10: the trailing index stays strictly behind the middle
(Consumer never advances onto middle), the middle never passes leading
(Transformer refuses), and leading never wraps onto trailing (Producer
refuses when the ring is full). -/
theorem scrubQueue_index_ordering (t0 t1 : ℚ) (startClockMillis : ℤ)
    (rate : ℚ) (maxDebt : ℤ) (options : ScrubbingOptions)
    (constructClockMillis : ℤ) (ops : List ScrubOp) :
    ScrubInv (ops.foldl scrubStep
      (mkScrubQueue t0 t1 startClockMillis rate maxDebt options
        constructClockMillis)) := by
  have hstep : ∀ (q : ScrubQueue) (op : ScrubOp),
      ScrubInv q → ScrubInv (scrubStep q op) := by
    intro q op h
    cases op with
    | producer e o c => exact producer_preserves_inv q e o c h
    | transformer now cd => exact transformer_preserves_inv q now cd h
    | consumer frames => exact consumer_preserves_inv q frames h
    | nudge => exact h
  have haux : ∀ (l : List ScrubOp) (q : ScrubQueue),
      ScrubInv q → ScrubInv (l.foldl scrubStep q) := by
    intro l
    induction l with
    | nil => intro q h; exact h
    | cons hd tl ih => intro q h; exact ih _ (hstep q hd h)
  exact haux ops _ (mkScrubQueue_inv t0 t1 startClockMillis rate maxDebt options
    constructClockMillis)

/-! ## Claim C5: loop wraparound -/

/-- Unfolding equation for the unwarped wrap loop. -/
theorem wrapLoop_succ (s : PlaybackSchedule) (fuel : ℕ) (time : ℚ) :
    s.wrapLoop (fuel + 1) time =
      if s.Overruns time then s.wrapLoop fuel (time - (s.mT1 - s.mT0)) else time :=
  rfl

/-- A looped schedule is not interactive. -/
theorem looped_not_interactive {s : PlaybackSchedule}
    (hmode : s.mPlayMode = PlayMode.PLAY_LOOPED) : ¬ s.Interactive := by
  simp [PlaybackSchedule.Interactive, PlaybackSchedule.Scrubbing,
    PlaybackSchedule.PlayingAtSpeed, hmode]

/-- `TrackTimeUpdate` changes only the track time. -/
theorem trackTimeUpdate_fields (s : PlaybackSchedule) (fuel : ℕ) (r : ℚ) :
    (s.TrackTimeUpdate fuel r).mT0 = s.mT0 ∧
    (s.TrackTimeUpdate fuel r).mT1 = s.mT1 ∧
    (s.TrackTimeUpdate fuel r).mPlayMode = s.mPlayMode ∧
    (s.TrackTimeUpdate fuel r).mTimeTrack = s.mTimeTrack := by
  unfold PlaybackSchedule.TrackTimeUpdate
  cases htt : s.mTimeTrack <;> dsimp only <;> split_ifs <;>
    exact ⟨rfl, rfl, rfl, htt⟩

/-- One unwarped looped `TrackTimeUpdate` call with an increment of at most
one loop length either stays put or wraps exactly once, landing back inside
`[T0, T1)`. -/
theorem trackTimeUpdate_step_unwarped (s : PlaybackSchedule) (fuel : ℕ) (r : ℚ)
    (hmode : s.mPlayMode = PlayMode.PLAY_LOOPED) (htt : s.mTimeTrack = none)
    (hT : s.mT0 < s.mT1) (hlo : s.mT0 ≤ s.mTime) (hhi : s.mTime < s.mT1)
    (hr0 : 0 < r) (hrL : r ≤ s.mT1 - s.mT0) (hfuel : 2 ≤ fuel) :
    ∃ k : ℕ, k ≤ 1 ∧
      (s.TrackTimeUpdate fuel r).mTime = s.mTime + r - k * (s.mT1 - s.mT0) ∧
      s.mT0 ≤ (s.TrackTimeUpdate fuel r).mTime ∧
      (s.TrackTimeUpdate fuel r).mTime < s.mT1 := by
  obtain ⟨f, rfl⟩ : ∃ f, fuel = f + 1 + 1 := ⟨fuel - 2, by omega⟩
  have hnotRev : ¬ s.ReversedTime := by
    simp only [PlaybackSchedule.ReversedTime, not_lt]
    linarith
  have key : (s.TrackTimeUpdate (f + 1 + 1) r).mTime
      = s.wrapLoop (f + 1 + 1) (s.mTime + r) := by
    have hloopProp : s.Looping := hmode
    unfold PlaybackSchedule.TrackTimeUpdate
    rw [if_neg (looped_not_interactive hmode)]
    dsimp only
    rw [htt]
    dsimp only
    rw [if_neg hnotRev, if_pos hloopProp]
    rfl
  rw [key]
  by_cases hov : s.mT1 ≤ s.mTime + r
  · -- wraps exactly once
    refine ⟨1, le_refl 1, ?_, ?_, ?_⟩ <;>
      rw [wrapLoop_succ,
        if_pos (show s.Overruns (s.mTime + r) by
          simp only [PlaybackSchedule.Overruns, if_neg hnotRev]
          exact hov),
        wrapLoop_succ,
        if_neg (show ¬ s.Overruns (s.mTime + r - (s.mT1 - s.mT0)) by
          simp only [PlaybackSchedule.Overruns, if_neg hnotRev, not_le]
          linarith)]
    · push_cast
      ring
    · linarith
    · linarith
  · refine ⟨0, by omega, ?_, ?_, ?_⟩ <;>
      rw [wrapLoop_succ,
        if_neg (show ¬ s.Overruns (s.mTime + r) by
          simp only [PlaybackSchedule.Overruns, if_neg hnotRev, not_le]
          linarith)]
    · push_cast
      ring
    · linarith
    · linarith

/-- Folding unwarped looped `TrackTimeUpdate` calls over positive
increments totalling at most one loop length subtracts some whole number of
loop lengths from the accumulated time and stays inside `[T0, T1)`. -/
theorem trackTimeUpdate_fold_unwarped (rs : List ℚ) :
    ∀ (s : PlaybackSchedule) (fuel : ℕ),
      s.mPlayMode = PlayMode.PLAY_LOOPED → s.mTimeTrack = none →
      s.mT0 < s.mT1 → s.mT0 ≤ s.mTime → s.mTime < s.mT1 →
      (∀ r ∈ rs, 0 < r) → rs.sum ≤ s.mT1 - s.mT0 → 2 ≤ fuel →
      ∃ k : ℕ,
        (rs.foldl (fun t r => t.TrackTimeUpdate fuel r) s).mTime
          = s.mTime + rs.sum - k * (s.mT1 - s.mT0) ∧
        s.mT0 ≤ (rs.foldl (fun t r => t.TrackTimeUpdate fuel r) s).mTime ∧
        (rs.foldl (fun t r => t.TrackTimeUpdate fuel r) s).mTime < s.mT1 := by
  induction rs with
  | nil =>
    intro s fuel hmode htt hT hlo hhi hpos hsum hfuel
    exact ⟨0, by simp, hlo, hhi⟩
  | cons r rest ih =>
    intro s fuel hmode htt hT hlo hhi hpos hsum hfuel
    have hr0 : 0 < r := hpos r (List.mem_cons_self r rest)
    have hrest0 : 0 ≤ rest.sum :=
      List.sum_nonneg (fun x hx => le_of_lt (hpos x (List.mem_cons_of_mem r hx)))
    have hsum2 : r + rest.sum ≤ s.mT1 - s.mT0 := by
      simpa [List.sum_cons] using hsum
    obtain ⟨k1, hk1, hstep, hlo2, hhi2⟩ :=
      trackTimeUpdate_step_unwarped s fuel r hmode htt hT hlo hhi hr0
        (by linarith) hfuel
    obtain ⟨hf0, hf1, hfm, hft⟩ := trackTimeUpdate_fields s fuel r
    obtain ⟨k2, hfold, hlo3, hhi3⟩ := ih (s.TrackTimeUpdate fuel r) fuel
      (by rw [hfm]; exact hmode) (by rw [hft]; exact htt)
      (by rw [hf0, hf1]; exact hT) (by rw [hf0]; exact hlo2)
      (by rw [hf1]; exact hhi2)
      (fun x hx => hpos x (List.mem_cons_of_mem r hx))
      (by rw [hf0, hf1]; linarith) hfuel
    rw [hf0, hf1] at hfold
    rw [hf0] at hlo3
    rw [hf1] at hhi3
    refine ⟨k1 + k2, ?_, ?_, ?_⟩
    · rw [List.foldl_cons, hfold, hstep, List.sum_cons]
      push_cast
      ring
    · rw [List.foldl_cons]
      exact hlo3
    · rw [List.foldl_cons]
      exact hhi3

/-- The unwarped half of claim C5: increments summing to exactly one loop
length return the track time to its start. -/
theorem trackTimeUpdate_roundtrip_unwarped (s : PlaybackSchedule)
    (rs : List ℚ) (fuel : ℕ)
    (hmode : s.mPlayMode = PlayMode.PLAY_LOOPED) (htt : s.mTimeTrack = none)
    (hT : s.mT0 < s.mT1) (hlo : s.mT0 ≤ s.mTime) (hhi : s.mTime < s.mT1)
    (hpos : ∀ r ∈ rs, 0 < r) (hsum : rs.sum = s.mT1 - s.mT0) (hfuel : 2 ≤ fuel) :
    (rs.foldl (fun t r => t.TrackTimeUpdate fuel r) s).mTime = s.mTime := by
  obtain ⟨k, hfold, hlo3, hhi3⟩ := trackTimeUpdate_fold_unwarped rs s fuel
    hmode htt hT hlo hhi hpos (le_of_eq hsum) hfuel
  rw [hsum] at hfold
  rcases k with _ | _ | n
  · rw [hfold] at hhi3
    push_cast at hfold hhi3
    linarith
  · rw [hfold]
    push_cast
    ring
  · rw [hfold] at hlo3
    have hn : (0:ℚ) ≤ (n:ℚ) := by positivity
    push_cast at hfold hlo3
    nlinarith [hlo3, hT, hlo]

/-- Unfolding equation for the warped do-loop. -/
theorem warpLoop_succ (s : PlaybackSchedule) (tt : TimeTrackModel) (fuel : ℕ)
    (time realElapsed : ℚ) (foundTotal : Bool) (total : ℚ) :
    s.warpLoop tt (fuel + 1) time realElapsed foundTotal total =
      if s.Looping ∧ s.Overruns
          (if foundTotal = true ∧ |total| < |realElapsed| then s.mT1
           else tt.SolveWarpedLength time realElapsed) then
        s.warpLoop tt fuel s.mT0
          (realElapsed -
            (if foundTotal = true ∧ time = s.mT0 then total
             else tt.ComputeWarpedLength time s.mT1))
          (foundTotal || decide (time = s.mT0))
          (if foundTotal = false ∧ time = s.mT0 then tt.ComputeWarpedLength time s.mT1
           else total)
      else
        (if foundTotal = true ∧ |total| < |realElapsed| then s.mT1
         else tt.SolveWarpedLength time realElapsed) :=
  rfl

/-- One warped looped `TrackTimeUpdate` call with an increment of at most
one warped loop length either stays put or wraps exactly once; the warped
image of the track time advances by the increment modulo the warped loop
length, and the track time lands back inside `[T0, T1)`. -/
theorem trackTimeUpdate_step_warped (s : PlaybackSchedule) (tt : TimeTrackModel)
    (fuel : ℕ) (r : ℚ)
    (hmode : s.mPlayMode = PlayMode.PLAY_LOOPED) (htt : s.mTimeTrack = some tt)
    (hW : StrictMono tt.W) (hlr : ∀ x, tt.Winv (tt.W x) = x)
    (hrl : ∀ y, tt.W (tt.Winv y) = y)
    (hdeg : ¬ |s.mT0 - s.mT1| < 1 / 1000000000)
    (hT : s.mT0 < s.mT1) (hlo : s.mT0 ≤ s.mTime) (hhi : s.mTime < s.mT1)
    (hr0 : 0 < r) (hrL : r ≤ tt.W s.mT1 - tt.W s.mT0) (hfuel : 2 ≤ fuel) :
    ∃ k : ℕ, k ≤ 1 ∧
      tt.W (s.TrackTimeUpdate fuel r).mTime
        = tt.W s.mTime + r - k * (tt.W s.mT1 - tt.W s.mT0) ∧
      s.mT0 ≤ (s.TrackTimeUpdate fuel r).mTime ∧
      (s.TrackTimeUpdate fuel r).mTime < s.mT1 := by
  obtain ⟨f, rfl⟩ : ∃ f, fuel = f + 1 + 1 := ⟨fuel - 2, by omega⟩
  have hnotRev : ¬ s.ReversedTime := by
    simp only [PlaybackSchedule.ReversedTime, not_lt]
    linarith
  have hloopProp : s.Looping := hmode
  have hWinvlt : ∀ y1 y2 : ℚ, y1 < y2 → tt.Winv y1 < tt.Winv y2 := by
    intro y1 y2 h
    by_contra hcon
    have := hW.le_iff_le.mpr (not_lt.mp hcon)
    rw [hrl, hrl] at this
    linarith
  have hWinvle : ∀ y1 y2 : ℚ, y1 ≤ y2 → tt.Winv y1 ≤ tt.Winv y2 := by
    intro y1 y2 h
    rcases lt_or_eq_of_le h with h3 | h3
    · exact le_of_lt (hWinvlt y1 y2 h3)
    · rw [h3]
  have hWlt : tt.W s.mTime < tt.W s.mT1 := hW hhi
  have hWlo : tt.W s.mT0 ≤ tt.W s.mTime := hW.le_iff_le.mpr hlo
  have key : (s.TrackTimeUpdate (f + 1 + 1) r).mTime
      = s.warpLoop tt (f + 1 + 1) s.mTime r false 0 := by
    unfold PlaybackSchedule.TrackTimeUpdate
    rw [if_neg (looped_not_interactive hmode)]
    dsimp only
    rw [htt]
    dsimp only
    rw [if_neg hnotRev, if_neg hdeg]
    rfl
  rw [key, warpLoop_succ,
    if_neg (show ¬((false = true) ∧ |(0:ℚ)| < |r|) by simp)]
  by_cases hov : tt.W s.mTime + r < tt.W s.mT1
  · -- no wrap
    have hnov : ¬ s.Overruns (tt.SolveWarpedLength s.mTime r) := by
      simp only [PlaybackSchedule.Overruns, if_neg hnotRev, not_le,
        TimeTrackModel.SolveWarpedLength]
      have := hWinvlt (tt.W s.mTime + r) (tt.W s.mT1) hov
      rw [hlr] at this
      exact this
    rw [if_neg (fun hc => absurd hc.2 hnov)]
    refine ⟨0, by omega, ?_, ?_, ?_⟩
    · simp only [TimeTrackModel.SolveWarpedLength]
      rw [hrl]
      push_cast
      ring
    · simp only [TimeTrackModel.SolveWarpedLength]
      have := hWinvle (tt.W s.mT0) (tt.W s.mTime + r) (by linarith)
      rw [hlr] at this
      exact this
    · simp only [TimeTrackModel.SolveWarpedLength]
      have := hWinvlt (tt.W s.mTime + r) (tt.W s.mT1) hov
      rw [hlr] at this
      exact this
  · -- wraps once
    push_neg at hov
    have hovProp : s.Overruns (tt.SolveWarpedLength s.mTime r) := by
      simp only [PlaybackSchedule.Overruns, if_neg hnotRev,
        TimeTrackModel.SolveWarpedLength]
      have := hWinvle (tt.W s.mT1) (tt.W s.mTime + r) hov
      rw [hlr] at this
      exact this
    rw [if_pos ⟨hloopProp, hovProp⟩,
      if_neg (show ¬((false = true) ∧ s.mTime = s.mT0) by simp)]
    by_cases ht0 : s.mTime = s.mT0
    · -- wrapping from exactly T0: the full-pass total is memoized and the
      -- remaining real time is zero
      have hreq : r = tt.W s.mT1 - tt.W s.mT0 := by
        rw [ht0] at hov
        linarith
      rw [if_pos ⟨rfl, ht0⟩, warpLoop_succ]
      have hft : (false || decide (s.mTime = s.mT0)) = true := by
        simp [ht0]
      rw [hft]
      have hc1 : ¬((true = true) ∧
          |tt.ComputeWarpedLength s.mTime s.mT1|
            < |r - tt.ComputeWarpedLength s.mTime s.mT1|) := by
        simp only [TimeTrackModel.ComputeWarpedLength, ht0, hreq]
        intro hc
        rcases hc with ⟨-, habs⟩
        rw [sub_self, abs_zero] at habs
        have : 0 < tt.W s.mT1 - tt.W s.mT0 := by linarith
        rw [abs_of_pos this] at habs
        linarith
    /- after the memoized-total test fails, the loop solves from T0 -/
      rw [if_neg hc1]
      have hnov2 : ¬ s.Overruns
          (tt.SolveWarpedLength s.mT0 (r - tt.ComputeWarpedLength s.mTime s.mT1)) := by
        simp only [PlaybackSchedule.Overruns, if_neg hnotRev, not_le,
          TimeTrackModel.SolveWarpedLength, TimeTrackModel.ComputeWarpedLength]
        have harg : tt.W s.mT0 + (r - (tt.W s.mT1 - tt.W s.mTime)) < tt.W s.mT1 := by
          linarith
        have := hWinvlt _ _ harg
        rw [hlr] at this
        exact this
      rw [if_neg (fun hc => absurd hc.2 hnov2)]
      refine ⟨1, le_refl 1, ?_, ?_, ?_⟩
      · simp only [TimeTrackModel.SolveWarpedLength, TimeTrackModel.ComputeWarpedLength]
        rw [hrl, ht0]
        push_cast
        ring
      · simp only [TimeTrackModel.SolveWarpedLength, TimeTrackModel.ComputeWarpedLength]
        have harg : tt.W s.mT0 ≤ tt.W s.mT0 + (r - (tt.W s.mT1 - tt.W s.mTime)) := by
          rw [ht0]
          linarith
        have := hWinvle _ _ harg
        rw [hlr] at this
        exact this
      · simp only [TimeTrackModel.SolveWarpedLength, TimeTrackModel.ComputeWarpedLength]
        have harg : tt.W s.mT0 + (r - (tt.W s.mT1 - tt.W s.mTime)) < tt.W s.mT1 := by
          linarith
        have := hWinvlt _ _ harg
        rw [hlr] at this
        exact this
    · -- wrapping from strictly inside the loop
      rw [if_neg (show ¬((false = false) ∧ s.mTime = s.mT0) from fun hc => ht0 hc.2),
        warpLoop_succ]
      have hft : (false || decide (s.mTime = s.mT0)) = false := by
        simp [ht0]
      rw [hft,
        if_neg (show ¬((false = true) ∧
          |(0:ℚ)| < |r - tt.ComputeWarpedLength s.mTime s.mT1|) by simp)]
      have hnov2 : ¬ s.Overruns
          (tt.SolveWarpedLength s.mT0 (r - tt.ComputeWarpedLength s.mTime s.mT1)) := by
        simp only [PlaybackSchedule.Overruns, if_neg hnotRev, not_le,
          TimeTrackModel.SolveWarpedLength, TimeTrackModel.ComputeWarpedLength]
        have harg : tt.W s.mT0 + (r - (tt.W s.mT1 - tt.W s.mTime)) < tt.W s.mT1 := by
          linarith
        have := hWinvlt _ _ harg
        rw [hlr] at this
        exact this
      rw [if_neg (fun hc => absurd hc.2 hnov2)]
      refine ⟨1, le_refl 1, ?_, ?_, ?_⟩
      · simp only [TimeTrackModel.SolveWarpedLength, TimeTrackModel.ComputeWarpedLength]
        rw [hrl]
        push_cast
        ring
      · simp only [TimeTrackModel.SolveWarpedLength, TimeTrackModel.ComputeWarpedLength]
        have harg : tt.W s.mT0 ≤ tt.W s.mT0 + (r - (tt.W s.mT1 - tt.W s.mTime)) := by
          linarith
        have := hWinvle _ _ harg
        rw [hlr] at this
        exact this
      · simp only [TimeTrackModel.SolveWarpedLength, TimeTrackModel.ComputeWarpedLength]
        have harg : tt.W s.mT0 + (r - (tt.W s.mT1 - tt.W s.mTime)) < tt.W s.mT1 := by
          linarith
        have := hWinvlt _ _ harg
        rw [hlr] at this
        exact this

/-- Folding warped looped `TrackTimeUpdate` calls over positive increments
totalling at most one warped loop length: the warped image of the track
time advances by the total minus some whole number of warped loop lengths,
and the track time stays inside `[T0, T1)`. -/
theorem trackTimeUpdate_fold_warped (rs : List ℚ) :
    ∀ (s : PlaybackSchedule) (tt : TimeTrackModel) (fuel : ℕ),
      s.mPlayMode = PlayMode.PLAY_LOOPED → s.mTimeTrack = some tt →
      StrictMono tt.W → (∀ x, tt.Winv (tt.W x) = x) →
      (∀ y, tt.W (tt.Winv y) = y) →
      ¬ |s.mT0 - s.mT1| < 1 / 1000000000 →
      s.mT0 < s.mT1 → s.mT0 ≤ s.mTime → s.mTime < s.mT1 →
      (∀ r ∈ rs, 0 < r) → rs.sum ≤ tt.W s.mT1 - tt.W s.mT0 → 2 ≤ fuel →
      ∃ k : ℕ,
        tt.W (rs.foldl (fun t r => t.TrackTimeUpdate fuel r) s).mTime
          = tt.W s.mTime + rs.sum - k * (tt.W s.mT1 - tt.W s.mT0) ∧
        s.mT0 ≤ (rs.foldl (fun t r => t.TrackTimeUpdate fuel r) s).mTime ∧
        (rs.foldl (fun t r => t.TrackTimeUpdate fuel r) s).mTime < s.mT1 := by
  induction rs with
  | nil =>
    intro s tt fuel hmode htt hW hlr hrl hdeg hT hlo hhi hpos hsum hfuel
    exact ⟨0, by simp, hlo, hhi⟩
  | cons r rest ih =>
    intro s tt fuel hmode htt hW hlr hrl hdeg hT hlo hhi hpos hsum hfuel
    have hr0 : 0 < r := hpos r (List.mem_cons_self r rest)
    have hrest0 : 0 ≤ rest.sum :=
      List.sum_nonneg (fun x hx => le_of_lt (hpos x (List.mem_cons_of_mem r hx)))
    have hsum2 : r + rest.sum ≤ tt.W s.mT1 - tt.W s.mT0 := by
      simpa [List.sum_cons] using hsum
    obtain ⟨k1, hk1, hstep, hlo2, hhi2⟩ :=
      trackTimeUpdate_step_warped s tt fuel r hmode htt hW hlr hrl hdeg hT hlo
        hhi hr0 (by linarith) hfuel
    obtain ⟨hf0, hf1, hfm, hft⟩ := trackTimeUpdate_fields s fuel r
    obtain ⟨k2, hfold, hlo3, hhi3⟩ := ih (s.TrackTimeUpdate fuel r) tt fuel
      (by rw [hfm]; exact hmode) (by rw [hft]; exact htt) hW hlr hrl
      (by rw [hf0, hf1]; exact hdeg)
      (by rw [hf0, hf1]; exact hT) (by rw [hf0]; exact hlo2)
      (by rw [hf1]; exact hhi2)
      (fun x hx => hpos x (List.mem_cons_of_mem r hx))
      (by rw [hf0, hf1]; linarith) hfuel
    rw [hf0, hf1] at hfold
    rw [hf0] at hlo3
    rw [hf1] at hhi3
    refine ⟨k1 + k2, ?_, ?_, ?_⟩
    · rw [List.foldl_cons, hfold, hstep, List.sum_cons]
      push_cast
      ring
    · rw [List.foldl_cons]
      exact hlo3
    · rw [List.foldl_cons]
      exact hhi3

/-- The warped half of claim C5: under a faithful warp, increments summing
to exactly one warped loop length return the track time to its start
(provided the loop is not degenerate, i.e. not below the source's `1e-9`
snap threshold). -/
theorem trackTimeUpdate_roundtrip_warped (s : PlaybackSchedule)
    (tt : TimeTrackModel) (rs : List ℚ) (fuel : ℕ)
    (hmode : s.mPlayMode = PlayMode.PLAY_LOOPED) (htt : s.mTimeTrack = some tt)
    (hW : StrictMono tt.W) (hlr : ∀ x, tt.Winv (tt.W x) = x)
    (hrl : ∀ y, tt.W (tt.Winv y) = y)
    (hdeg : ¬ |s.mT0 - s.mT1| < 1 / 1000000000)
    (hT : s.mT0 < s.mT1) (hlo : s.mT0 ≤ s.mTime) (hhi : s.mTime < s.mT1)
    (hpos : ∀ r ∈ rs, 0 < r) (hsum : rs.sum = tt.W s.mT1 - tt.W s.mT0)
    (hfuel : 2 ≤ fuel) :
    (rs.foldl (fun t r => t.TrackTimeUpdate fuel r) s).mTime = s.mTime := by
  obtain ⟨k, hfold, hlo3, hhi3⟩ := trackTimeUpdate_fold_warped rs s tt fuel
    hmode htt hW hlr hrl hdeg hT hlo hhi hpos (le_of_eq hsum) hfuel
  rw [hsum] at hfold
  have hWlo3 := hW.le_iff_le.mpr hlo3
  have hWhi3 := hW hhi3
  have hWlo := hW.le_iff_le.mpr hlo
  have hWhi := hW hhi
  have hLw : 0 < tt.W s.mT1 - tt.W s.mT0 := by
    have := hW hT
    linarith
  rcases k with _ | _ | n
  · rw [hfold] at hWhi3
    push_cast at hWhi3
    linarith
  · apply hW.injective
    rw [hfold]
    push_cast
    ring
  · rw [hfold] at hWlo3
    have hn : (0:ℚ) ≤ (n:ℚ) := by positivity
    push_cast at hWlo3
    nlinarith [mul_nonneg hn (le_of_lt hLw)]

/-- The claim's end-to-end scenario: looped playback over the 0.5 s
selection `[0, 1/2]` with no time track, starting at `T0`; 1.3 s of real
elapsed time lands the track time at `T0 + (1.3 mod 0.5) = 3/10`. -/
theorem trackTimeUpdate_scenario :
    (schedLoopC5.TrackTimeUpdate 3 (13/10)).mTime = 3/10 := by
  have hnotRev : ¬ schedLoopC5.ReversedTime := by
    norm_num [PlaybackSchedule.ReversedTime, schedLoopC5]
  have hloopProp : schedLoopC5.Looping := rfl
  have hov : ∀ t : ℚ, 1/2 ≤ t → schedLoopC5.Overruns t := by
    intro t ht
    simp only [PlaybackSchedule.Overruns, if_neg hnotRev]
    exact ht
  have hnov : ∀ t : ℚ, t < 1/2 → ¬ schedLoopC5.Overruns t := by
    intro t ht
    simp only [PlaybackSchedule.Overruns, if_neg hnotRev, not_le]
    exact ht
  have key : (schedLoopC5.TrackTimeUpdate 3 (13/10)).mTime
      = schedLoopC5.wrapLoop 3 (schedLoopC5.mTime + 13/10) := by
    unfold PlaybackSchedule.TrackTimeUpdate
    rw [if_neg (looped_not_interactive rfl)]
    dsimp only
    rw [show schedLoopC5.mTimeTrack = none from rfl]
    dsimp only
    rw [if_neg hnotRev, if_pos hloopProp]
    rfl
  rw [key]
  rw [show (3:ℕ) = 2 + 1 from rfl, wrapLoop_succ,
    if_pos (hov _ (by norm_num [schedLoopC5]))]
  rw [show (2:ℕ) = 1 + 1 from rfl, wrapLoop_succ,
    if_pos (hov _ (by norm_num [schedLoopC5]))]
  rw [show (1:ℕ) = 0 + 1 from rfl, wrapLoop_succ,
    if_neg (hnov _ (by norm_num [schedLoopC5]))]
  norm_num [schedLoopC5]

/-- C5, counterexample: the claim as stated also covers degenerate warped
loops, but the source's defensive check (`|mT0 - mT1| < 1e-9` snaps to
`mT0`, AudioIO.cpp:5517) breaks the round trip there: a looped schedule
over `[0, 1e-10]` under the identity warp, starting strictly inside the
selection, is sent to `mT0` by one call whose increment is exactly one
warped loop length. -/
theorem trackTimeUpdate_degenerate_ce :
    ceSchedC5.mPlayMode = PlayMode.PLAY_LOOPED ∧
    ceSchedC5.mT0 ≤ ceSchedC5.mTime ∧ ceSchedC5.mTime < ceSchedC5.mT1 ∧
    [(1:ℚ)/10000000000].sum
      = idWarp.W ceSchedC5.mT1 - idWarp.W ceSchedC5.mT0 ∧
    (∀ r ∈ [(1:ℚ)/10000000000], 0 < r) ∧
    ([(1:ℚ)/10000000000].foldl (fun t r => t.TrackTimeUpdate 2 r) ceSchedC5).mTime
      ≠ ceSchedC5.mTime := by
  refine ⟨rfl, by norm_num [ceSchedC5], by norm_num [ceSchedC5],
    by norm_num [ceSchedC5, idWarp], ?_, ?_⟩
  · intro r hr
    rw [List.mem_singleton] at hr
    rw [hr]
    norm_num
  · have hval : ([(1:ℚ)/10000000000].foldl
        (fun t r => t.TrackTimeUpdate 2 r) ceSchedC5).mTime = ceSchedC5.mT0 := by
      simp only [List.foldl_cons, List.foldl_nil]
      unfold PlaybackSchedule.TrackTimeUpdate
      rw [if_neg (looped_not_interactive rfl)]
      dsimp only
      rw [show ceSchedC5.mTimeTrack = some idWarp from rfl]
      dsimp only
      rw [if_neg (show ¬ ceSchedC5.ReversedTime by
          norm_num [PlaybackSchedule.ReversedTime, ceSchedC5]),
        if_pos (show |ceSchedC5.mT0 - ceSchedC5.mT1| < 1 / 1000000000 by
          norm_num [ceSchedC5, abs_lt])]
      rfl
    rw [hval]
    norm_num [ceSchedC5]

/-- C5: for every looping `PlaybackSchedule` with track time starting in
`[T0, T1)`, repeatedly calling `TrackTimeUpdate` with positive real-time
increments summing to exactly one loop length (`T1 - T0` unwarped, one
loop's warped length under a faithful warp with a non-degenerate loop)
returns the track time to its starting value; and in the claim's concrete
scenario — a looped 0.5 s selection, no time track — 1.3 s of elapsed real
time lands at `T0 + (1.3 mod 0.5) = 3/10`. -/
theorem trackTimeUpdate_loop_roundtrip :
    (∀ (s : PlaybackSchedule) (rs : List ℚ) (fuel : ℕ),
       s.mPlayMode = PlayMode.PLAY_LOOPED → s.mTimeTrack = none →
       s.mT0 < s.mT1 → s.mT0 ≤ s.mTime → s.mTime < s.mT1 →
       (∀ r ∈ rs, 0 < r) → rs.sum = s.mT1 - s.mT0 → 2 ≤ fuel →
       (rs.foldl (fun t r => t.TrackTimeUpdate fuel r) s).mTime = s.mTime) ∧
    (∀ (s : PlaybackSchedule) (tt : TimeTrackModel) (rs : List ℚ) (fuel : ℕ),
       s.mPlayMode = PlayMode.PLAY_LOOPED → s.mTimeTrack = some tt →
       StrictMono tt.W → (∀ x, tt.Winv (tt.W x) = x) →
       (∀ y, tt.W (tt.Winv y) = y) →
       ¬ |s.mT0 - s.mT1| < 1 / 1000000000 →
       s.mT0 < s.mT1 → s.mT0 ≤ s.mTime → s.mTime < s.mT1 →
       (∀ r ∈ rs, 0 < r) → rs.sum = tt.W s.mT1 - tt.W s.mT0 → 2 ≤ fuel →
       (rs.foldl (fun t r => t.TrackTimeUpdate fuel r) s).mTime = s.mTime) ∧
    (schedLoopC5.TrackTimeUpdate 3 (13/10)).mTime = 3/10 :=
  ⟨fun s rs fuel hmode htt hT hlo hhi hpos hsum hfuel =>
      trackTimeUpdate_roundtrip_unwarped s rs fuel hmode htt hT hlo hhi hpos
        hsum hfuel,
   fun s tt rs fuel hmode htt hW hlr hrl hdeg hT hlo hhi hpos hsum hfuel =>
      trackTimeUpdate_roundtrip_warped s tt rs fuel hmode htt hW hlr hrl hdeg
        hT hlo hhi hpos hsum hfuel,
   trackTimeUpdate_scenario⟩

/-- C5, witness for the amended theorem: an unwarped looped schedule over
`[0, 1/2]` starting at `1/10` returns to `1/10` after increments
`3/10 + 1/5 = 1/2`; a double-warped looped schedule over `[0, 1]` starting
at `1/4` returns to `1/4` after one increment of the warped loop length 2. -/
theorem trackTimeUpdate_loop_roundtrip_witness :
    ([(3:ℚ)/10, 1/5].foldl (fun t r => t.TrackTimeUpdate 2 r) wSchedC5).mTime
      = wSchedC5.mTime ∧
    ([(2:ℚ)].foldl (fun t r => t.TrackTimeUpdate 2 r) wSchedC5w).mTime
      = wSchedC5w.mTime := by
  constructor
  · refine trackTimeUpdate_loop_roundtrip.1 wSchedC5 [3/10, 1/5] 2 rfl rfl
      (by norm_num [wSchedC5]) (by norm_num [wSchedC5]) (by norm_num [wSchedC5])
      ?_ (by norm_num [wSchedC5]) (le_refl 2)
    intro r hr
    fin_cases hr <;> norm_num
  · refine trackTimeUpdate_loop_roundtrip.2.1 wSchedC5w doubleWarp [2] 2 rfl rfl
      ?_ ?_ ?_ (by norm_num [wSchedC5w]) (by norm_num [wSchedC5w])
      (by norm_num [wSchedC5w]) (by norm_num [wSchedC5w])
      ?_ (by norm_num [wSchedC5w, doubleWarp]) (le_refl 2)
    · intro a b h
      dsimp [doubleWarp]
      linarith
    · intro x
      dsimp [doubleWarp]
      ring
    · intro y
      dsimp [doubleWarp]
      ring
    · intro r hr
      rw [List.mem_singleton] at hr
      rw [hr]
      norm_num

/-! ## Claim C3: debt throttling bound -/

/-- Unfolding the debt loop one step on the whole-entry-discard path. -/
theorem debtLoop_full_step (leading : Fin 10) (fuel : ℕ)
    (entries : Fin 10 → ScrubEntry) (middle : Fin 10) (debt toDiscard : ℤ)
    (hg : 0 < toDiscard ∧ middle ≠ leading)
    (hdur : (entries middle).mDuration ≤ toDiscard) :
    ScrubQueue.debtLoop leading (fuel + 1) entries middle debt toDiscard =
      ScrubQueue.debtLoop leading fuel
        (Function.update entries middle
          { entries middle with mDuration := 0 })
        (middle + 1) (debt - (entries middle).mDuration)
        (toDiscard - (entries middle).mDuration) := by
  rw [ScrubQueue.debtLoop]
  dsimp only
  rw [if_pos hg, if_pos hdur]

/-- Unfolding the debt loop when its guard fails: nothing changes. -/
theorem debtLoop_exit (leading : Fin 10) (fuel : ℕ)
    (entries : Fin 10 → ScrubEntry) (middle : Fin 10) (debt toDiscard : ℤ)
    (hg : ¬(0 < toDiscard ∧ middle ≠ leading)) :
    ScrubQueue.debtLoop leading (fuel + 1) entries middle debt toDiscard =
      (entries, middle, debt, toDiscard) := by
  rw [ScrubQueue.debtLoop]
  dsimp only
  rw [if_neg hg]

/-- The debt loop maintains `toDiscard = debt - maxDebt`; consequently,
whenever it stops with queued work remaining (middle has not caught
leading), the remaining debt is at most the maximum. -/
theorem debtLoop_debt_le (leading : Fin 10) :
    ∀ (fuel : ℕ) (entries : Fin 10 → ScrubEntry) (middle : Fin 10)
      (debt toDiscard maxDebt : ℤ),
      toDiscard = debt - maxDebt → ringDist middle leading ≤ fuel →
      ((ScrubQueue.debtLoop leading fuel entries middle debt toDiscard).2.1 ≠ leading →
        (ScrubQueue.debtLoop leading fuel entries middle debt toDiscard).2.2.1 ≤ maxDebt) := by
  intro fuel
  induction fuel with
  | zero =>
    intro entries middle debt toDiscard maxDebt hinv hfuel hne
    exact absurd ((ringDist_eq_zero_iff middle leading).mp (Nat.le_zero.mp hfuel)) hne
  | succ fuel ih =>
    intro entries middle debt toDiscard maxDebt hinv hfuel hne
    rw [ScrubQueue.debtLoop] at hne ⊢
    dsimp only at hne ⊢
    split_ifs at hne ⊢ with hg hdur hs
    · -- whole-entry discard, recurse
      refine ih _ _ _ _ maxDebt (by omega) ?_ hne
      have := ringDist_succ_toward middle leading hg.2
      omega
    · -- partial discard: debt becomes exactly maxDebt
      show debt - toDiscard ≤ maxDebt
      omega
    · show debt - toDiscard ≤ maxDebt
      omega
    · -- guard failed: toDiscard ≤ 0 or middle = leading
      show debt ≤ maxDebt
      have hne2 : middle ≠ leading := hne
      rcases Decidable.not_and_iff_or_not.mp hg with h0 | hm
      · omega
      · exact absurd (Decidable.not_not.mp hm) hne2

/-- C3, amended: whenever the Transformer performs its debt check (fresh
critical-section entry, prior timing data, queued work), afterwards either
the accumulated debt is at most the configured maximum, or the discard loop
exhausted the queue and the call returned the `-1` sentinel instead of a
work item.  In particular `mDebt ≤ mMaxDebt` whenever the call hands out
work; but when the queued work was smaller than the excess debt, the
residual debt may exceed the maximum. -/
theorem transformer_debt_bounded (q : ScrubQueue) (now : ℤ)
    (hlast : 0 ≤ q.mLastTransformerTimeMillis)
    (hwork : q.mMiddleIdx ≠ q.mLeadingIdx) :
    (q.Transformer now true).queue.mDebt ≤ (q.Transformer now true).queue.mMaxDebt ∨
    ((q.Transformer now true).startSample = -1 ∧
     (q.Transformer now true).endSample = -1 ∧
     (q.Transformer now true).duration = -1) := by
  have hd := debtLoop_debt_le q.mLeadingIdx 10 q.mEntries q.mMiddleIdx
    (q.mDebt + (truncQ (((now - q.mLastTransformerTimeMillis : ℤ) : ℚ) / 1000
        * q.mRate) - q.mCredit))
    (q.mDebt + (truncQ (((now - q.mLastTransformerTimeMillis : ℤ) : ℚ) / 1000
        * q.mRate) - q.mCredit) - q.mMaxDebt)
    q.mMaxDebt rfl (le_trans (ringDist_le_nine _ _) (by norm_num))
  simp only [ScrubQueue.Transformer]
  rw [if_pos (⟨trivial, hlast, hwork⟩ : True ∧ _ ∧ _)]
  by_cases hm : (ScrubQueue.debtLoop q.mLeadingIdx 10 q.mEntries q.mMiddleIdx
      (q.mDebt + (truncQ (((now - q.mLastTransformerTimeMillis : ℤ) : ℚ) / 1000
          * q.mRate) - q.mCredit))
      (q.mDebt + (truncQ (((now - q.mLastTransformerTimeMillis : ℤ) : ℚ) / 1000
          * q.mRate) - q.mCredit) - q.mMaxDebt)).2.1 = q.mLeadingIdx
  · rw [if_neg (not_not_intro hm)]
    rw [if_pos trivial]
    exact Or.inr ⟨rfl, rfl, rfl⟩
  · rw [if_pos hm]
    rw [if_pos trivial]
    exact Or.inl (hd hm)

/-- C3, counterexample: with one queued entry of a single sample, maximum
debt 0, rate 10 and a one-second gap since the last check, the debt check
accrues 10 samples of debt, the discard loop exhausts the queue after
cancelling only 1, and the call ends with `mDebt = 9 > 0 = mMaxDebt` —
the claim's bound fails after a Transformer invocation that performed its
debt check on a queue where the Producer had outpaced consumption. -/
theorem transformer_debt_overrun_ce :
    0 ≤ ceScrubQ.mLastTransformerTimeMillis ∧
    ceScrubQ.mMiddleIdx ≠ ceScrubQ.mLeadingIdx ∧
    (ceScrubQ.Transformer 1000 true).queue.mMaxDebt
      < (ceScrubQ.Transformer 1000 true).queue.mDebt := by
  refine ⟨by decide, by decide, ?_⟩
  have hmid : (ScrubQueue.debtLoop (2 : Fin 10) 10 ceEntriesC3 1 10 10).2.1 = 2 := by
    decide
  have hdebt : (ScrubQueue.debtLoop (2 : Fin 10) 10 ceEntriesC3 1 10 10).2.2.1 = 9 := by
    decide
  unfold ScrubQueue.Transformer
  simp only [ceScrubQ]
  norm_num [truncQ, show ((1:Fin 10) = 2) = False by simp, hmid, hdebt,
    show ¬((2:Fin 10) ≠ 2) by simp]

/-- C3, witness for the amended theorem: with a 20-sample entry queued, the
same debt check cancels all excess debt by shrinking the entry, work is
handed out, and the bound (the left disjunct) holds. -/
theorem transformer_debt_bounded_witness :
    (wScrubQ.Transformer 1000 true).queue.mDebt
        ≤ (wScrubQ.Transformer 1000 true).queue.mMaxDebt ∨
    ((wScrubQ.Transformer 1000 true).startSample = -1 ∧
     (wScrubQ.Transformer 1000 true).endSample = -1 ∧
     (wScrubQ.Transformer 1000 true).duration = -1) :=
  transformer_debt_bounded wScrubQ 1000 (by decide) (by decide)

/-! ## Claim C8: Producer failure cases -/

/-- C8: `Producer` returns false — enqueuing nothing and leaving all three
queue indices and every entry unchanged — whenever the ring is full
(advancing leading would reach trailing) or the computed interval duration
is non-positive; no error is surfaced beyond the false return. -/
theorem producer_fails_full_or_nonpos (q : ScrubQueue) (endOrSpeed : ℚ)
    (options : ScrubbingOptions) (clockTime : ℤ)
    (h : q.mLeadingIdx + 1 = q.mTrailingIdx ∨ scrubDuration q clockTime ≤ 0) :
    (q.Producer endOrSpeed options clockTime).1 = false ∧
    (q.Producer endOrSpeed options clockTime).2.mEntries = q.mEntries ∧
    (q.Producer endOrSpeed options clockTime).2.mTrailingIdx = q.mTrailingIdx ∧
    (q.Producer endOrSpeed options clockTime).2.mMiddleIdx = q.mMiddleIdx ∧
    (q.Producer endOrSpeed options clockTime).2.mLeadingIdx = q.mLeadingIdx := by
  unfold ScrubQueue.Producer
  dsimp only
  rcases h with hfull | hdur
  · rw [if_neg (not_not_intro hfull)]
    exact ⟨rfl, rfl, rfl, rfl, rfl⟩
  · by_cases h1 : q.mLeadingIdx + 1 = q.mTrailingIdx
    · rw [if_neg (not_not_intro h1)]
      exact ⟨rfl, rfl, rfl, rfl, rfl⟩
    · rw [if_pos h1, if_pos hdur]
      exact ⟨rfl, rfl, rfl, rfl, rfl⟩

/-- C8, witness: on a full ring (leading 2, trailing 3) and, separately, on
a call with no wall-clock progress (duration 0), Producer returns false
with the indices unchanged. -/
theorem producer_fails_witness :
    ((ceScrubQ8full.Producer 5 wOptions 1000).1 = false ∧
      (ceScrubQ8full.Producer 5 wOptions 1000).2.mLeadingIdx
        = ceScrubQ8full.mLeadingIdx) ∧
    ((ceScrubQ8dur.Producer 5 wOptions 100).1 = false ∧
      (ceScrubQ8dur.Producer 5 wOptions 100).2.mLeadingIdx
        = ceScrubQ8dur.mLeadingIdx) := by
  have h1 := producer_fails_full_or_nonpos ceScrubQ8full 5 wOptions 1000
    (Or.inl (by decide))
  have h2 := producer_fails_full_or_nonpos ceScrubQ8dur 5 wOptions 100
    (Or.inr (by simp [scrubDuration, ceScrubQ8dur, ceScrubQ, truncQ]))
  exact ⟨⟨h1.1, h1.2.2.2.2⟩, ⟨h2.1, h2.2.2.2.2⟩⟩

/-! ## Claim C1: latency-correction amounts -/

/-- Evaluation of the latency-correction block for one track when the
correction was already applied. -/
theorem latencyCorrectionStep_done (rs : RecordingSchedule) (rate factor : ℚ)
    (avail : ℕ) (rb : RingBuffer) (hflag : rs.mLatencyCorrected = true) :
    latencyCorrectionStep rs rate factor avail rb = ⟨0, 0, rb, true⟩ := by
  unfold latencyCorrectionStep
  rw [if_pos hflag]

/-- Evaluation of the latency-correction block for one track: non-negative
total correction injects `floor(correction * rate * factor)` samples of
silence and leaves the buffer alone. -/
theorem latencyCorrectionStep_pos (rs : RecordingSchedule) (rate factor : ℚ)
    (avail : ℕ) (rb : RingBuffer) (hflag : rs.mLatencyCorrected = false)
    (hpos : 0 ≤ rs.TotalCorrection) :
    latencyCorrectionStep rs rate factor avail rb =
      ⟨(⌊rs.TotalCorrection * rate * factor⌋).toNat, 0, rb, true⟩ := by
  unfold latencyCorrectionStep
  rw [if_neg (by simp [hflag]), if_pos hpos]

/-- Evaluation of the latency-correction block for one track: negative
total correction discards `min(avail, floor(ToDiscard * rate))` samples
from the ring buffer (given that `avail` undercounts the buffer, as
`GetCommonlyAvailCapture` does) and keeps the flag false exactly when the
target exceeded `avail`. -/
theorem latencyCorrectionStep_neg (rs : RecordingSchedule) (rate factor : ℚ)
    (avail : ℕ) (rb : RingBuffer) (hflag : rs.mLatencyCorrected = false)
    (hneg : rs.TotalCorrection < 0) (havail : avail ≤ rb.AvailForGet) :
    latencyCorrectionStep rs rate factor avail rb =
      ⟨0, min avail (⌊rs.ToDiscard * rate⌋).toNat,
        { rb with stored := rb.stored - min avail (⌊rs.ToDiscard * rate⌋).toNat },
        decide ((⌊rs.ToDiscard * rate⌋).toNat ≤ avail)⟩ := by
  have hstored : avail ≤ rb.stored := havail
  unfold latencyCorrectionStep
  rw [if_neg (by simp [hflag]), if_neg (not_le.mpr hneg)]
  simp only [RingBuffer.Discard, RingBuffer.AvailForGet]
  have h1 : min (min avail (⌊rs.ToDiscard * rate⌋).toNat) rb.stored
      = min avail (⌊rs.ToDiscard * rate⌋).toNat := by omega
  have h2 : (!decide (min avail (⌊rs.ToDiscard * rate⌋).toNat
        < (⌊rs.ToDiscard * rate⌋).toNat))
      = decide ((⌊rs.ToDiscard * rate⌋).toNat ≤ avail) := by
    rcases Nat.lt_or_ge avail (⌊rs.ToDiscard * rate⌋).toNat with hlt | hge
    · simp [Nat.min_eq_left (le_of_lt hlt), hlt, Nat.not_le.mpr hlt]
    · simp [Nat.min_eq_right hge, hge]
  simp only [h1, h2]

/-- C1, amended: in each recording pass of `FillBuffers` with the latency
correction still pending, a non-negative total correction injects exactly
`floor(correction * rate * mFactor)` silence samples in front of each
capture track (with the flag then set, so this happens once); a negative
correction discards exactly `min(avail, floor(ToDiscard() * rate))` samples
from the start of each capture ring buffer — the target
`floor(|correction| * rate)` bounded by the commonly available samples —
and `mLatencyCorrected` is left false exactly when fewer than the target
were available, so the discard completes over multiple passes; once the
flag is set, later passes inject and discard nothing. -/
theorem fillBuffers_latency_correction (rs : RecordingSchedule) (rate factor : ℚ)
    (buffers : List RingBuffer) :
    (rs.mLatencyCorrected = false → 0 ≤ rs.TotalCorrection →
       (fillBuffersLatency rs rate factor buffers).silencePrepended =
         buffers.map (fun _ => (⌊rs.TotalCorrection * rate * factor⌋).toNat) ∧
       (fillBuffersLatency rs rate factor buffers).discarded =
         buffers.map (fun _ => 0) ∧
       (fillBuffersLatency rs rate factor buffers).schedule.mLatencyCorrected = true) ∧
    (rs.mLatencyCorrected = false → rs.TotalCorrection < 0 →
       (fillBuffersLatency rs rate factor buffers).discarded =
         buffers.map (fun _ =>
           min (commonlyAvailCapture buffers) (⌊rs.ToDiscard * rate⌋).toNat) ∧
       (fillBuffersLatency rs rate factor buffers).silencePrepended =
         buffers.map (fun _ => 0) ∧
       ((fillBuffersLatency rs rate factor buffers).schedule.mLatencyCorrected = true ↔
          (buffers = [] ∨
            (⌊rs.ToDiscard * rate⌋).toNat ≤ commonlyAvailCapture buffers))) ∧
    (rs.mLatencyCorrected = true →
       (fillBuffersLatency rs rate factor buffers).silencePrepended =
         buffers.map (fun _ => 0) ∧
       (fillBuffersLatency rs rate factor buffers).discarded =
         buffers.map (fun _ => 0) ∧
       (fillBuffersLatency rs rate factor buffers).buffers = buffers) := by
  refine ⟨?_, ?_, ?_⟩
  · intro hflag hpos
    refine ⟨?_, ?_, ?_⟩
    · show (buffers.map _).map _ = _
      rw [List.map_map]
      exact List.map_congr_left (fun rb _ => by
        simp [Function.comp, latencyCorrectionStep_pos rs rate factor _ rb hflag hpos])
    · show (buffers.map _).map _ = _
      rw [List.map_map]
      exact List.map_congr_left (fun rb _ => by
        simp [Function.comp, latencyCorrectionStep_pos rs rate factor _ rb hflag hpos])
    · show (buffers.map _).foldl _ true = true
      rw [foldl_and_eq_all, Bool.true_and, List.all_eq_true]
      intro r hr
      obtain ⟨rb, hrb, rfl⟩ := List.mem_map.mp hr
      rw [latencyCorrectionStep_pos rs rate factor _ rb hflag hpos]
  · intro hflag hneg
    have hstep := fun (rb : RingBuffer) (hrb : rb ∈ buffers) =>
      latencyCorrectionStep_neg rs rate factor (commonlyAvailCapture buffers) rb
        hflag hneg (commonlyAvailCapture_le hrb)
    refine ⟨?_, ?_, ?_⟩
    · show (buffers.map _).map _ = _
      rw [List.map_map]
      exact List.map_congr_left (fun rb hrb => by simp [Function.comp, hstep rb hrb])
    · show (buffers.map _).map _ = _
      rw [List.map_map]
      exact List.map_congr_left (fun rb hrb => by simp [Function.comp, hstep rb hrb])
    · show ((buffers.map _).foldl _ true = true) ↔ _
      rw [foldl_and_eq_all, Bool.true_and, List.all_eq_true]
      constructor
      · intro hall
        cases buffers with
        | nil => exact Or.inl rfl
        | cons hd tl =>
          refine Or.inr ?_
          have hmem : hd ∈ hd :: tl := List.mem_cons_self hd tl
          have := hall _ (List.mem_map.mpr ⟨hd, hmem, rfl⟩)
          rw [hstep hd hmem] at this
          simpa using this
      · rintro (rfl | hle)
        · intro r hr
          simp at hr
        · intro r hr
          obtain ⟨rb, hrb, rfl⟩ := List.mem_map.mp hr
          rw [hstep rb hrb]
          simpa using hle
  · intro hflag
    refine ⟨?_, ?_, ?_⟩
    · show (buffers.map _).map _ = _
      rw [List.map_map]
      exact List.map_congr_left (fun rb _ => by
        simp [Function.comp, latencyCorrectionStep_done rs rate factor _ rb hflag])
    · show (buffers.map _).map _ = _
      rw [List.map_map]
      exact List.map_congr_left (fun rb _ => by
        simp [Function.comp, latencyCorrectionStep_done rs rate factor _ rb hflag])
    · show (buffers.map _).map _ = _
      rw [List.map_map]
      have : buffers.map
          ((fun r => r.buffer) ∘ latencyCorrectionStep rs rate factor (commonlyAvailCapture buffers))
          = buffers.map (fun rb => rb) :=
        List.map_congr_left (fun rb _ => by
          simp [Function.comp, latencyCorrectionStep_done rs rate factor _ rb hflag])
      rw [this]
      exact List.map_id' buffers

/-- C1, counterexample: with total correction `3/20` s at 10 Hz (and unit
resampling factor), the source injects `floor(1.5) = 1` silence sample but
the claim's `round(correction*rate)` is `2`. -/
theorem latency_silence_floor_ce :
    (fillBuffersLatency ceRecSchedC1 10 1 [ceBufC1]).silencePrepended = [1] ∧
    latencySilenceClaimed ceRecSchedC1 10 = 2 := by
  constructor
  · norm_num [fillBuffersLatency, latencyCorrectionStep, commonlyAvailCapture,
      RecordingSchedule.TotalCorrection, ceRecSchedC1, ceBufC1]
  · norm_num [latencySilenceClaimed, RecordingSchedule.TotalCorrection,
      ceRecSchedC1, round_eq]

/-- C1, witness for the amended theorem: the positive case injects exactly
`floor(3/2) = 1` sample at correction `3/20` s, rate 10; the negative case
with correction `-2/5` s discards exactly 4 samples (target 4, 50
available) and sets the flag. -/
theorem fillBuffers_latency_correction_witness :
    (fillBuffersLatency ceRecSchedC1 10 1 [ceBufC1]).silencePrepended = [1] ∧
    (fillBuffersLatency wRecSchedC1 10 1 [ceBufC1]).discarded = [4] ∧
    (fillBuffersLatency wRecSchedC1 10 1 [ceBufC1]).schedule.mLatencyCorrected = true := by
  have h1 := (fillBuffers_latency_correction ceRecSchedC1 10 1 [ceBufC1]).1 rfl
    (by norm_num [RecordingSchedule.TotalCorrection, ceRecSchedC1])
  have h2 := (fillBuffers_latency_correction wRecSchedC1 10 1 [ceBufC1]).2.1 rfl
    (by norm_num [RecordingSchedule.TotalCorrection, wRecSchedC1])
  refine ⟨?_, ?_, ?_⟩
  · rw [h1.1]
    norm_num [RecordingSchedule.TotalCorrection, ceRecSchedC1]
  · rw [h2.1]
    norm_num [RecordingSchedule.ToDiscard, RecordingSchedule.TotalCorrection,
      wRecSchedC1, commonlyAvailCapture, ceBufC1, RingBuffer.AvailForGet]
    rfl
  · rw [h2.2.2]
    refine Or.inr ?_
    norm_num [RecordingSchedule.ToDiscard, RecordingSchedule.TotalCorrection,
      wRecSchedC1, commonlyAvailCapture, ceBufC1, RingBuffer.AvailForGet]

/-! ## Claim C6: playback silence padding -/

/-- Per-track sample accounting of one playback do-loop iteration in a
non-straight play mode: given the source's guarantees that the mixer
produces at most `frames` samples and that the common free space covers
`frames`, the track's ring buffer receives exactly `frames` samples (mixer
output plus silence padding). -/
theorem fillBuffersPlaybackTrack_stored_nonstraight (playMode : PlayMode)
    (mSilentScrub progress : Bool) (frames mixerOut : ℕ) (rb : RingBuffer)
    (hmode : playMode ≠ PlayMode.PLAY_STRAIGHT) (hmix : mixerOut ≤ frames)
    (havail : frames ≤ rb.AvailForPut) :
    (fillBuffersPlaybackTrack playMode mSilentScrub progress frames mixerOut rb).stored
      = rb.stored + frames := by
  have hcap : frames ≤ rb.capacity - rb.stored := havail
  have hstraight : decide (playMode = PlayMode.PLAY_STRAIGHT) = false := by
    simp [hmode]
  unfold fillBuffersPlaybackTrack
  simp only [hstraight, Bool.not_false, Bool.and_true, RingBuffer.Put,
    RingBuffer.AvailForPut]
  split_ifs with h1 h2 h2 <;> simp_all <;> omega

/-- C6, amended: in every iteration of the playback loop of `FillBuffers`,
in every play mode except straight play, each playback ring buffer receives
exactly the iteration's `frames` samples — any mixer shortfall is padded
with silence, so the buffers stay frame-aligned; in straight play the
shortfall is not padded (source guard `!PlayingStraight()`), so alignment
is not enforced there. -/
theorem playback_pads_silence_nonstraight (playMode : PlayMode)
    (mSilentScrub progress : Bool) (frames : ℕ) (tracks : List (ℕ × RingBuffer))
    (hmode : playMode ≠ PlayMode.PLAY_STRAIGHT)
    (h : ∀ p ∈ tracks, p.1 ≤ frames ∧ frames ≤ p.2.AvailForPut) :
    (fillBuffersPlaybackPass playMode mSilentScrub progress frames tracks).map
        RingBuffer.stored
      = tracks.map (fun p => p.2.stored + frames) := by
  unfold fillBuffersPlaybackPass
  rw [List.map_map]
  exact List.map_congr_left (fun p hp =>
    fillBuffersPlaybackTrack_stored_nonstraight playMode mSilentScrub progress
      frames p.1 p.2 hmode (h p hp).1 (h p hp).2)

/-- C6, witness for the amended theorem: looped mode, two tracks whose
mixers produce 5 and 3 of the requested 5 frames; both ring buffers end up
with exactly 5 samples. -/
theorem playback_pads_silence_nonstraight_witness :
    (fillBuffersPlaybackPass PlayMode.PLAY_LOOPED false true 5
        [(5, ceBufC6), (3, ceBufC6)]).map RingBuffer.stored = [5, 5] := by
  have h := playback_pads_silence_nonstraight PlayMode.PLAY_LOOPED false true 5
    [(5, ceBufC6), (3, ceBufC6)] (by decide)
    (by intro p hp; fin_cases hp <;> exact ⟨by decide, by decide⟩)
  simpa [ceBufC6] using h

/-- C6, counterexample: in straight play the source does not pad a mixer
shortfall, so two playback ring buffers receive different totals (5 and 3)
in the same iteration, contradicting the claim's "in every play mode". -/
theorem playback_unequal_straight_ce :
    (fillBuffersPlaybackPass PlayMode.PLAY_STRAIGHT false true 5
        [(5, ceBufC6), (3, ceBufC6)]).map RingBuffer.stored = [5, 3] ∧
    (5 : ℕ) ≠ 3 := by
  exact ⟨rfl, by decide⟩

/-! ## Claim C7: capture dropout detection -/

/-- The clipped `len` never exceeds any capture buffer's free space. -/
theorem captureLen_le {framesPerBuffer : ℕ} {buffers : List RingBuffer}
    {spurious : Bool} {rb : RingBuffer} (hrb : rb ∈ buffers) :
    captureLen framesPerBuffer buffers spurious ≤ rb.AvailForPut := by
  unfold captureLen
  cases spurious with
  | false => simpa using foldl_min_le_mem RingBuffer.AvailForPut buffers framesPerBuffer hrb
  | true => simp

/-- C7: during a capture callback with dropout detection enabled, whenever
the storable frame count `len` (the minimum `AvailForPut` over the capture
ring buffers, possibly zeroed by the error-simulation hook) is less than
`framesPerBuffer`, a lost-capture interval is appended whose duration is
`(framesPerBuffer - len)/rate`, and every capture ring buffer receives
exactly `len` samples. -/
theorem capture_dropout_records_interval (framesPerBuffer : ℕ)
    (buffers : List RingBuffer)
    (mDetectUpstreamDropouts inputError spurious : Bool)
    (trackTime latencyCorrection rate : ℚ)
    (intervals : List (ℚ × ℚ)) (lostSamples : ℕ)
    (hlen : captureLen framesPerBuffer buffers spurious < framesPerBuffer) :
    (audioCallbackCapture framesPerBuffer buffers true mDetectUpstreamDropouts
        inputError spurious trackTime latencyCorrection rate intervals
        lostSamples).mLostCaptureIntervals
      = intervals ++
          [(trackTime + (captureLen framesPerBuffer buffers spurious : ℚ) / rate
              + latencyCorrection,
            ((framesPerBuffer - captureLen framesPerBuffer buffers spurious : ℕ) : ℚ)
              / rate)] ∧
    (audioCallbackCapture framesPerBuffer buffers true mDetectUpstreamDropouts
        inputError spurious trackTime latencyCorrection rate intervals
        lostSamples).buffers.map RingBuffer.stored
      = buffers.map (fun rb =>
          rb.stored + captureLen framesPerBuffer buffers spurious) := by
  unfold audioCallbackCapture
  constructor
  · simp only
    rw [if_pos]
    simp [hlen]
  · simp only
    by_cases h0 : 0 < captureLen framesPerBuffer buffers spurious
    · rw [if_pos h0, List.map_map]
      refine List.map_congr_left (fun rb hrb => ?_)
      have hle := @captureLen_le framesPerBuffer buffers spurious rb hrb
      simp only [Function.comp, RingBuffer.Put]
      have : min (captureLen framesPerBuffer buffers spurious) rb.AvailForPut
          = captureLen framesPerBuffer buffers spurious := min_eq_left hle
      simp [this]
    · rw [if_neg h0]
      have hz : captureLen framesPerBuffer buffers spurious = 0 := by omega
      rw [hz]
      simp

/-- C7, witness: request 512 frames with 400 storable (capacity 1000, 600
already stored) at rate 44100: one interval of duration `112/44100` is
appended and the single capture buffer receives exactly 400 samples. -/
theorem capture_dropout_records_interval_witness :
    captureLen 512 [wBufC7] false < 512 ∧
    (audioCallbackCapture 512 [wBufC7] true false false false 0 0 44100 []
        0).mLostCaptureIntervals
      = [((400 : ℚ) / 44100, (112 : ℚ) / 44100)] ∧
    (audioCallbackCapture 512 [wBufC7] true false false false 0 0 44100 []
        0).buffers.map RingBuffer.stored = [1000] := by
  have h := capture_dropout_records_interval 512 [wBufC7] false false false
    0 0 44100 [] 0 (by decide)
  refine ⟨by decide, ?_, ?_⟩
  · rw [h.1]
    have : captureLen 512 [wBufC7] false = 400 := by decide
    rw [this]
    norm_num
  · rw [h.2]
    have : captureLen 512 [wBufC7] false = 400 := by decide
    rw [this]
    simp [wBufC7]

/-- C4, counterexample: the claim reads completion in reverse play as
crossing `T0`, but the source's `Overruns` compares against `mT1` for both
directions.  On the reversed schedule `[T0,T1] = [4,1]` at track time `3`,
`PassIsComplete` is false while the claimed predicate is true. -/
theorem passIsComplete_reversed_bound_ce :
    ceSchedC4.PassIsComplete = false ∧ PassIsCompleteClaimed ceSchedC4 = true := by
  refine ⟨?_, ?_⟩
  · simp [ceSchedC4, PlaybackSchedule.PassIsComplete,
      PlaybackSchedule.Overruns, PlaybackSchedule.Scrubbing,
      PlaybackSchedule.ReversedTime, PlaybackSchedule.GetTrackTime]
  · simp [ceSchedC4, PassIsCompleteClaimed, PlaybackSchedule.Scrubbing,
      PlaybackSchedule.GetTrackTime]
    norm_num

/-- C4, amended: `PassIsComplete()` returns true exactly when the current
track time has crossed `T1` in the direction of playback — where the
crossed bound is `T1` also when playing in reverse (`T1 < T0`) — and
returns false always while scrubbing (`PLAY_SCRUB`; it may be true in
play-at-speed mode). -/
theorem passIsComplete_characterization (s : PlaybackSchedule) :
    s.PassIsComplete = true ↔
      (s.mPlayMode ≠ PlayMode.PLAY_SCRUB ∧
        (if s.mT1 < s.mT0 then s.mTime ≤ s.mT1 else s.mT1 ≤ s.mTime)) := by
  unfold PlaybackSchedule.PassIsComplete PlaybackSchedule.Overruns
    PlaybackSchedule.Scrubbing PlaybackSchedule.ReversedTime
    PlaybackSchedule.GetTrackTime
  by_cases hscrub : s.mPlayMode = PlayMode.PLAY_SCRUB <;>
    by_cases hrev : s.mT1 < s.mT0 <;>
    simp [hscrub, hrev]

/-- C9, counterexample: `ToConsume()` is not always non-negative; with
duration 1 s, position 2 s and zero total correction it is `-1`. -/
theorem toConsume_negative_ce : RecordingSchedule.ToConsume ceRecSched < 0 := by
  simp [RecordingSchedule.ToConsume, RecordingSchedule.Consumed,
    RecordingSchedule.TotalCorrection, ceRecSched]

/-- C9, amended: for every `RecordingSchedule` state, `ToDiscard()` is
non-negative, and `ToConsume()` is non-negative provided the consumed time
does not exceed the scheduled duration (`Consumed() ≤ mDuration`); when
position plus total correction exceeds the duration, `ToConsume()` is
negative. -/
theorem toDiscard_nonneg_toConsume_cond (r : RecordingSchedule) :
    0 ≤ r.ToDiscard ∧ (r.Consumed ≤ r.mDuration → 0 ≤ r.ToConsume) := by
  constructor
  · exact le_max_left 0 _
  · intro h
    unfold RecordingSchedule.ToConsume
    linarith

/-- C9, witness for the amended theorem at a concrete state. -/
theorem toDiscard_nonneg_toConsume_cond_witness :
    0 ≤ wRecSched.ToDiscard ∧ 0 ≤ wRecSched.ToConsume :=
  ⟨(toDiscard_nonneg_toConsume_cond wRecSched).1,
   (toDiscard_nonneg_toConsume_cond wRecSched).2 (by
      simp [RecordingSchedule.Consumed, RecordingSchedule.TotalCorrection,
        wRecSched])⟩

/-- C10: `GetStreamTime()` returns the sentinel `BAD_STREAM_TIME` whenever
no stream is active, and when a stream is active it returns exactly the
normalized track time — so a position query never yields a track time for a
stopped stream. -/
theorem getStreamTime_sentinel (a : StreamState) :
    (IsStreamActive a = false → GetStreamTime a = BAD_STREAM_TIME) ∧
    (IsStreamActive a = true →
      GetStreamTime a = a.mPlaybackSchedule.NormalizeTrackTime) := by
  constructor <;> intro h <;> simp [GetStreamTime, h]

/-- C10, witness: a concrete stopped stream yields the sentinel, and a
concrete active stream yields the normalized track time. -/
theorem getStreamTime_sentinel_witness :
    GetStreamTime inactiveStreamState = BAD_STREAM_TIME ∧
    GetStreamTime activeStreamState =
      activeStreamState.mPlaybackSchedule.NormalizeTrackTime :=
  ⟨(getStreamTime_sentinel inactiveStreamState).1 (by decide),
   (getStreamTime_sentinel activeStreamState).2 (by decide)⟩

end Audacity
